import Mathlib

/-!
# SampleMind FL Studio plugin wrapper: parameter registry, presets, analysis state

A shallow embedding of `src/plugins/fl_studio/cpp/samplemind_wrapper.{h,cpp}`.

* `float` values are modelled by `F32`: either NaN or an exactly represented
  number.  Only the comparison behaviour of `float` is used by the registry
  (`std::min`, `std::max`), and a comparison with NaN is false, as in C++.
* `std::vector` is a `List`; `std::map<int, T>` is a list of key/value pairs kept in
  increasing key order (`StdMap`), which is also its iteration order.
* `int` is `Int`; vector indices are `Nat`.  The one `int` that can overflow, the loop
  counter of `extract_waveform`, is tested against `INT_MAX`.
* The object `SampleMindFLPlugin` is the record `State`; each member function is a
  function on `State` that returns the new state (and the C++ return value).
* A member function that can throw or run into undefined behaviour returns an `Option`,
  `none` standing for a call that does not return normally.
* Storage that is owned through raw pointers is followed as far as the code depends on
  it: a `PyObject*` member is a `Handle`, and an element of the analysis queue is a
  `QueuedBuffer`, the member-wise copy of an `AudioBuffer` whose channels are freed.
* The worker thread is interleaved with the calls on the object one loop iteration at a
  time (`analysis_worker_iteration`); what the two threads do to the same member at the
  same moment is not followed.
-/

namespace SampleMind

/-! ## `float` -/

/-- A `float` as far as the registry is concerned: NaN, or a number. -/
inductive F32 where
  | nan : F32
  | num (q : ℚ) : F32
  deriving DecidableEq

namespace F32

/-- The C++ `operator<` on `float`: false as soon as one side is NaN. -/
def lt : F32 → F32 → Bool
  | num a, num b => decide (a < b)
  | _, _ => false

/-- The C++ `operator<=` on `float`: false as soon as one side is NaN. -/
def le : F32 → F32 → Bool
  | num a, num b => decide (a ≤ b)
  | _, _ => false

/-- The literal `0.0f`. -/
def zero : F32 := num 0

/-- The C++ `operator+` on `float` (rounding is not modelled). -/
def add : F32 → F32 → F32
  | num a, num b => num (a + b)
  | _, _ => nan

/-- The C++ `operator/` on `float` (rounding is not modelled; `x / 0` is not a number
here, the infinities not being modelled). -/
def div : F32 → F32 → F32
  | num a, num b => if b = 0 then nan else num (a / b)
  | _, _ => nan

instance : Add F32 := ⟨add⟩
instance : Div F32 := ⟨div⟩
instance : OfNat F32 2 := ⟨num 2⟩
instance : Inhabited F32 := ⟨zero⟩

end F32

/-- The function `std::min(a, b)`, which is `(b < a) ? b : a`. -/
def std_min (a b : F32) : F32 := if F32.lt b a then b else a

/-- The function `std::max(a, b)`, which is `(a < b) ? b : a`. -/
def std_max (a b : F32) : F32 := if F32.lt a b then b else a

/-! ## `std::map<int, T>` -/

/-- A `std::map<int, T>`: key/value pairs in increasing key order. -/
abbrev StdMap (V : Type) := List (Int × V)

namespace StdMap

variable {V : Type}

/-- The call `m.find(k)`: `none` stands for `m.end()`. -/
def find : StdMap V → Int → Option V
  | [], _ => none
  | (k', v) :: rest, k => if k = k' then some v else find rest k

/-- The assignment `m[k] = v`: overwrite the entry of `k`, or insert it at its place. -/
def assign : StdMap V → Int → V → StdMap V
  | [], k, v => [(k, v)]
  | (k', v') :: rest, k, v =>
    if k < k' then (k, v) :: (k', v') :: rest
    else if k = k' then (k, v) :: rest
    else (k', v') :: assign rest k v

/-- The keys of the map, in iteration order. -/
def keys (m : StdMap V) : List Int := m.map Prod.fst

/-- The representation invariant of a `std::map`: keys strictly increasing. -/
def Ordered (m : StdMap V) : Prop := (keys m).Pairwise (fun a b => a < b)

end StdMap

/-! ## Data model (`samplemind_wrapper.h`) -/

/-- The struct `AudioBuffer`: `right` is `none` for the null pointer. -/
structure AudioBuffer (F : Type) where
  left : List F
  right : Option (List F)
  num_samples : Int
  sample_rate : Int
  is_stereo : Bool
  deriving DecidableEq

/-- The struct `PluginParameter`. -/
structure PluginParameter where
  id : Int
  name : String
  min_value : F32
  max_value : F32
  default_value : F32
  current_value : F32
  is_automatable : Bool
  display_format : String
  deriving DecidableEq

/-- The constructor `PluginParameter(_id, _name, min_val, max_val, def_val, fmt)`. -/
def PluginParameter.new (_id : Int) (_name : String) (min_val max_val def_val : F32)
    (fmt : String) : PluginParameter :=
  { id := _id, name := _name, min_value := min_val, max_value := max_val,
    default_value := def_val, current_value := def_val,
    is_automatable := true, display_format := fmt }

/-- The struct `AnalysisResult`. -/
structure AnalysisResult where
  tempo_bpm : F32
  key : String
  primary_genre : String
  mood : String
  energy_level : F32
  confidence_score : F32
  duration_seconds : F32
  extended_features : List (String × F32)
  deriving DecidableEq

/-- The constructor `AnalysisResult()`. -/
def AnalysisResult.new : AnalysisResult :=
  { tempo_bpm := F32.zero, key := "", primary_genre := "", mood := "",
    energy_level := F32.zero, confidence_score := F32.zero,
    duration_seconds := F32.zero, extended_features := [] }

/-- The private struct `Preset`. -/
structure Preset where
  name : String
  parameter_values : StdMap F32
  deriving DecidableEq

/-- A value-initialised `Preset`, as `resize` creates it. -/
def Preset.new : Preset := { name := "", parameter_values := [] }

/-- The constant `INT_MAX` of a 32-bit `int`. -/
def INT_MAX : Int := 2147483647

/-- What `std::string::operator=(const char*)` copies from a C string: the characters
before the first NUL. -/
def c_str (utf8 : String) : String :=
  String.mk (utf8.data.takeWhile (fun c => c ≠ Char.ofNat 0))

/-- A Python object as far as `parse_analysis_result` looks at it.  The payload of
`float` is the value after the cast `(float)PyFloat_AsDouble(value)`.  The payload of
`unicode` is the text of the string, or `none` for a string that has no UTF-8 encoding
(a lone surrogate), for which `PyUnicode_AsUTF8` returns the null pointer. -/
inductive PyObject where
  | none : PyObject
  | float (x : F32) : PyObject
  | unicode (utf8 : Option String) : PyObject
  | long (n : Int) : PyObject
  | dict (items : List (String × PyObject)) : PyObject

namespace PyObject

/-- The macro `PyFloat_Check`. -/
def isFloat : PyObject → Bool
  | float _ => true
  | _ => false

/-- The macro `PyUnicode_Check`. -/
def isUnicode : PyObject → Bool
  | unicode _ => true
  | _ => false

/-- The macro `PyDict_Check`. -/
def isDict : PyObject → Bool
  | dict _ => true
  | _ => false

/-- The call `(float)PyFloat_AsDouble(value)` on an object that passed `PyFloat_Check`. -/
def asFloat : PyObject → F32
  | float x => x
  | _ => F32.zero

/-- The `std::string` that the assignment `field = PyUnicode_AsUTF8(value)` stores, for an
object that passed `PyUnicode_Check`: the UTF-8 text up to its first NUL.  The result is
`none` when `PyUnicode_AsUTF8` returns the null pointer, which the code assigns
untested: undefined behaviour. -/
def asUTF8 : PyObject → Option String
  | unicode (some utf8) => some (c_str utf8)
  | _ => Option.none

/-- Lookup of a string key among the items of a dictionary. -/
def lookupItem : List (String × PyObject) → String → Option PyObject
  | [], _ => Option.none
  | (k, v) :: rest, key => if key = k then some v else lookupItem rest key

/-- The call `PyDict_GetItemString(py_dict, key)`: `none` is the null pointer. -/
def getItemString : PyObject → String → Option PyObject
  | dict items, key => lookupItem items key
  | _, _ => Option.none

end PyObject

/-- What the embedded interpreter does during `initialize_python`, step by step. -/
inductive PyInit where
  /-- The call `Py_IsInitialized()` stays false. -/
  | no_interpreter
  /-- The call `PyImport_Import` returns null. -/
  | import_fails
  /-- The attribute `AudioEngine` is missing or not callable. -/
  | no_engine_class
  /-- Instantiating `AudioEngine` returns null. -/
  | instantiate_fails
  /-- The attribute `analyze_full` is missing (`found = false`) or not callable. -/
  | no_analyze_method (found : Bool)
  /-- Every step succeeds. -/
  | ok
  deriving DecidableEq

/-- What happens inside one `analyze_buffer` call once `pAnalyzeFunc_` is set. -/
inductive EngineCall where
  /-- The call `audio_to_numpy` returns null. -/
  | numpy_fails
  /-- The call `PyObject_CallObject` returns `result` (`none` is the null pointer). -/
  | returns (result : Option PyObject)

/-- A `PyObject*` member of the plugin: the null pointer, a reference the plugin owns, or
the pointer that `Py_XDECREF` leaves behind once the reference is given up (the macro
does not reset the pointer, and the code never does). -/
inductive Handle where
  | null
  | owned
  | released
  deriving DecidableEq

/-- The effect of `Py_XDECREF(p)` on the member `p`: nothing for the null pointer, the
reference is given up for an owned one; `none` for a reference already given up, which
the macro would decrement a second time (undefined behaviour). -/
def Handle.xdecref : Handle → Option Handle
  | Handle.null => some Handle.null
  | Handle.owned => some Handle.released
  | Handle.released => none

/-- An element of `analysis_queue_`.  The call `analysis_queue_.push(buffer)` copies the
struct member by member, `AudioBuffer` declaring no copy constructor, and `process`
destroys its local `buffer` on return, whose destructor `delete[]`s both channels.
Between two calls a queued element therefore holds the three plain members below and two
channel pointers to storage already freed: it holds no samples, and destroying it, which
`delete[]`s the channels again, is undefined behaviour. -/
structure QueuedBuffer where
  num_samples : Int
  sample_rate : Int
  is_stereo : Bool
  deriving DecidableEq

/-- The data members of `SampleMindFLPlugin`.  The member `analysis_thread` is true while
the `std::thread` member is joinable; `workers_started` counts the `std::thread` objects
constructed so far (it is not a member of the class, only a record of the threads the
object started). -/
structure State where
  pPythonModule : Handle
  pPythonPlugin : Handle
  pAnalyzeFunc : Handle
  pProcessFunc : Handle
  sample_rate : Int
  block_size : Int
  is_initialized : Bool
  analysis_enabled : Bool
  parameters : List PluginParameter
  param_id_to_index : StdMap Nat
  current_analysis : AnalysisResult
  analysis_queue : List QueuedBuffer
  analysis_thread : Bool
  analysis_thread_running : Bool
  preset_slots : List Preset
  waveform_data : List F32
  workers_started : Nat
  deriving DecidableEq

/-- The constructor `SampleMindFLPlugin()`. -/
def State.new : State :=
  { pPythonModule := Handle.null, pPythonPlugin := Handle.null, pAnalyzeFunc := Handle.null,
    pProcessFunc := Handle.null, sample_rate := 44100, block_size := 512,
    is_initialized := false, analysis_enabled := true,
    parameters := [], param_id_to_index := [],
    current_analysis := AnalysisResult.new, analysis_queue := [],
    analysis_thread := false, analysis_thread_running := false,
    preset_slots := [], waveform_data := [], workers_started := 0 }

/-! ## Parameter management -/

/-- The member function `add_parameter`. -/
def add_parameter (s : State) (param : PluginParameter) : State :=
  let parameters := s.parameters ++ [param]
  { s with parameters := parameters,
           param_id_to_index := s.param_id_to_index.assign param.id (parameters.length - 1) }

/-- The member function `set_parameter`.  An index outside the vector is undefined
behaviour in C++; it does not occur in a reachable state, and the model leaves the
state unchanged there. -/
def set_parameter (s : State) (param_id : Int) (value : F32) : Bool × State :=
  match s.param_id_to_index.find param_id with
  | none => (false, s)
  | some index =>
    match s.parameters[index]? with
    | none => (true, s)
    | some param =>
      let value := std_max param.min_value (std_min value param.max_value)
      (true, { s with parameters := s.parameters.set index { param with current_value := value } })

/-- The member function `get_parameter`. -/
def get_parameter (s : State) (param_id : Int) : F32 :=
  match s.param_id_to_index.find param_id with
  | none => F32.zero
  | some index =>
    match s.parameters[index]? with
    | none => F32.zero
    | some param => param.current_value

/-- The member function `get_parameter_by_name`: the first parameter of that name. -/
def get_parameter_by_name (s : State) (name : String) : Option PluginParameter :=
  s.parameters.find? (fun param => decide (param.name = name))

/-! ## Preset management -/

/-- The loop of `save_preset`: `preset.parameter_values[param.id] = param.current_value`. -/
def save_values (values : StdMap F32) : List PluginParameter → StdMap F32
  | [] => values
  | param :: rest => save_values (values.assign param.id param.current_value) rest

/-- The member function `save_preset`.  Past the guard the slot exists: the `none`
branch of the vector access is never taken. -/
def save_preset (s : State) (slot : Int) (name : String) : Bool × State :=
  if slot < 0 ∨ slot ≥ (s.preset_slots.length : Int) then (false, s)
  else
    match s.preset_slots[slot.toNat]? with
    | none => (false, s)
    | some preset =>
      let preset := { preset with name := name }
      let preset := { preset with
        parameter_values := save_values preset.parameter_values s.parameters }
      (true, { s with preset_slots := s.preset_slots.set slot.toNat preset })

/-- The loop of `load_preset`: `set_parameter(param_id, value)` for every entry. -/
def load_values (s : State) : StdMap F32 → State
  | [] => s
  | (param_id, value) :: rest => load_values (set_parameter s param_id value).2 rest

/-- The member function `load_preset`.  Past the guard the slot exists: the `none`
branch of the vector access is never taken. -/
def load_preset (s : State) (slot : Int) : Bool × State :=
  if slot < 0 ∨ slot ≥ (s.preset_slots.length : Int) then (false, s)
  else
    match s.preset_slots[slot.toNat]? with
    | none => (false, s)
    | some preset =>
      if preset.name = "" then (false, s)
      else (true, load_values s preset.parameter_values)

/-! ## Waveform extraction

A member function that can leave defined behaviour returns an `Option`: `none` stands
for a call that does not return normally, because it throws or because its behaviour is
undefined in C++. -/

/-- The loop `for (int i = 0; i < buffer.num_samples; i += step)` of
`extract_waveform`, with `fuel` bounding the number of iterations.  A read beyond a
channel is undefined behaviour, and so is the signed overflow of `i += step`, which is
evaluated at the end of every iteration, the last one included. -/
def extract_waveform_loop {F : Type} [Add F] [Div F] [OfNat F 2]
    (buffer : AudioBuffer F) (step : Int) : Nat → Int → List F → Option (List F)
  | 0, _, waveform => some waveform
  | fuel + 1, i, waveform =>
    if i < buffer.num_samples then
      match buffer.left[i.toNat]? with
      | none => none
      | some sample =>
        let averaged : Option F :=
          match buffer.is_stereo, buffer.right with
          | true, some right => (right[i.toNat]?).map (fun r => (sample + r) / 2)
          | _, _ => some sample
        match averaged with
        | none => none
        | some sample =>
          if i + step > INT_MAX then none
          else extract_waveform_loop buffer step fuel (i + step) (waveform ++ [sample])
    else some waveform

/-- The local `waveform` that `extract_waveform` builds.  Every iteration advances
`i` by `step >= 1`, so `num_samples` iterations are enough
(`extract_waveform_loop_fuel`). -/
def extract_waveform_samples {F : Type} [Add F] [Div F] [OfNat F 2]
    (buffer : AudioBuffer F) : Option (List F) :=
  let display_samples : Int := 1000
  let step : Int := max 1 (Int.tdiv buffer.num_samples display_samples)
  extract_waveform_loop buffer step buffer.num_samples.toNat 0 []

/-- The member function `extract_waveform`: the local waveform replaces
`waveform_data_`. -/
def extract_waveform (s : State) (buffer : AudioBuffer F32) : Option State :=
  match extract_waveform_samples buffer with
  | none => none
  | some waveform => some { s with waveform_data := waveform }

/-! ## Audio analysis -/

/-- The member function `parse_analysis_result`, on `current_analysis_`.  Assigning the
null pointer that `PyUnicode_AsUTF8` returns on failure to a `std::string` is undefined
behaviour. -/
def parse_analysis_result (current : AnalysisResult) (py_dict : PyObject) :
    Option AnalysisResult :=
  let current :=
    match py_dict.getItemString "tempo_bpm" with
    | some value => if value.isFloat then { current with tempo_bpm := value.asFloat } else current
    | none => current
  Option.bind
    (match py_dict.getItemString "key" with
      | some value =>
        if value.isUnicode then value.asUTF8.map (fun str => { current with key := str })
        else some current
      | none => some current)
    fun current =>
  Option.bind
    (match py_dict.getItemString "primary_genre" with
      | some value =>
        if value.isUnicode then
          value.asUTF8.map (fun str => { current with primary_genre := str })
        else some current
      | none => some current)
    fun current =>
  Option.bind
    (match py_dict.getItemString "mood" with
      | some value =>
        if value.isUnicode then value.asUTF8.map (fun str => { current with mood := str })
        else some current
      | none => some current)
    fun current =>
  let current :=
    match py_dict.getItemString "energy_level" with
    | some value =>
      if value.isFloat then { current with energy_level := value.asFloat } else current
    | none => current
  let current :=
    match py_dict.getItemString "confidence_score" with
    | some value =>
      if value.isFloat then { current with confidence_score := value.asFloat } else current
    | none => current
  some current

/-- The member function `analyze_buffer`: the returned result and the new state.  The
buffer only travels to the engine, whose answer is `call`.  Calling through
`pAnalyzeFunc_` after its reference was given up is undefined behaviour. -/
def analyze_buffer (s : State) (call : EngineCall) : Option (AnalysisResult × State) :=
  match s.pAnalyzeFunc with
  | Handle.null => some (AnalysisResult.new, s)
  | Handle.released => none
  | Handle.owned =>
    match call with
    | EngineCall.numpy_fails => some (AnalysisResult.new, s)
    | EngineCall.returns result =>
      match result with
      | some r =>
        if r.isDict then
          match parse_analysis_result s.current_analysis r with
          | none => none
          | some parsed => some (parsed, { s with current_analysis := parsed })
        else some (s.current_analysis, s)
      | none => some (s.current_analysis, s)

/-- One test of the loop condition of `analysis_worker_thread` followed, when the
flag `analysis_thread_running_` is set, by one iteration of the loop body.  The local
`AudioBuffer buffer(block_size_, ...)` throws `std::bad_array_new_length` for a negative
block size, which terminates the thread's process.  With a block queued, the body runs
`buffer = analysis_queue_.front(); analysis_queue_.pop();`: the `pop` destroys the queued
element, whose channels `process` already freed, so the dequeue is undefined behaviour
and the call `analyze_buffer(buffer)` after it is never reached in defined behaviour. -/
def analysis_worker_iteration (s : State) : Option State :=
  if !s.analysis_thread_running then some s
  else if s.block_size < 0 then none
  else
    match s.analysis_queue with
    | [] => some s
    | _ :: _ => none

/-! ## Plugin lifecycle -/

/-- The member function `initialize_python`. -/
def initialize_python (s : State) (py : PyInit) : Bool × State :=
  match py with
  | PyInit.no_interpreter => (false, s)
  | PyInit.import_fails => (false, { s with pPythonModule := Handle.null })
  | PyInit.no_engine_class => (false, { s with pPythonModule := Handle.owned })
  | PyInit.instantiate_fails =>
    (false, { s with pPythonModule := Handle.owned, pPythonPlugin := Handle.null })
  | PyInit.no_analyze_method found =>
    (false, { s with pPythonModule := Handle.owned, pPythonPlugin := Handle.owned,
                     pAnalyzeFunc := if found then Handle.released else Handle.null })
  | PyInit.ok =>
    (true, { s with pPythonModule := Handle.owned, pPythonPlugin := Handle.owned,
                    pAnalyzeFunc := Handle.owned })

/-- The member function `cleanup_python`: four `Py_XDECREF`, none of which resets its
pointer. -/
def cleanup_python (s : State) : Option State := do
  let pAnalyzeFunc ← s.pAnalyzeFunc.xdecref
  let pProcessFunc ← s.pProcessFunc.xdecref
  let pPythonPlugin ← s.pPythonPlugin.xdecref
  let pPythonModule ← s.pPythonModule.xdecref
  return { s with pAnalyzeFunc := pAnalyzeFunc, pProcessFunc := pProcessFunc,
                  pPythonPlugin := pPythonPlugin, pPythonModule := pPythonModule }

/-- The call `preset_slots_.resize(n)`. -/
def resize_slots (slots : List Preset) (n : Nat) : List Preset :=
  slots.take n ++ List.replicate (n - slots.length) Preset.new

/-- The member function `initialize` of `SampleMindFLPlugin`. -/
def initialize_plugin (s : State) (sample_rate block_size : Int) (py : PyInit) : State :=
  if s.is_initialized then s
  else
    let s := { s with sample_rate := sample_rate, block_size := block_size }
    match initialize_python s py with
    | (false, s) => s
    | (true, s) =>
      { s with preset_slots := resize_slots s.preset_slots 128,
               analysis_thread_running := true,
               analysis_thread := true,
               workers_started := s.workers_started + 1,
               is_initialized := true }

/-- The member function `process`.  The constructor of the local `AudioBuffer` runs
`new float[num_samples]`, which throws `std::bad_array_new_length` for a negative count
before any member is touched; the two `memcpy` calls read `num_samples` floats of each
channel, which is undefined behaviour when a channel holds fewer.  What is queued is the
member-wise copy described at `QueuedBuffer`. -/
def process (s : State) (left_channel right_channel : List F32) (num_samples : Int) :
    Option State :=
  if !s.is_initialized then some s
  else if num_samples < 0 then none
  else if left_channel.length < num_samples.toNat ∨
      right_channel.length < num_samples.toNat then none
  else
    let buffer : AudioBuffer F32 :=
      { left := left_channel.take num_samples.toNat,
        right := some (right_channel.take num_samples.toNat),
        num_samples := num_samples, sample_rate := s.sample_rate, is_stereo := true }
    let s := if s.analysis_enabled then
        { s with analysis_queue := s.analysis_queue ++
            [{ num_samples := buffer.num_samples, sample_rate := buffer.sample_rate,
               is_stereo := buffer.is_stereo }] }
      else s
    if Int.tmod num_samples 64 = 0 then extract_waveform s buffer else some s

/-- The member function `shutdown`. -/
def shutdown (s : State) : Option State :=
  match cleanup_python
      { s with analysis_thread_running := false, analysis_thread := false } with
  | none => none
  | some s => some { s with is_initialized := false }

/-- The member function `reset`.  The loop `while (!analysis_queue_.empty())
analysis_queue_.pop();` destroys every queued element; with a block queued the first
`pop` `delete[]`s channels that `process` already freed, which is undefined
behaviour. -/
def reset (s : State) : Option State :=
  match s.analysis_queue with
  | _ :: _ => none
  | [] =>
    some { s with analysis_queue := [],
                  parameters := s.parameters.map
                    (fun param => { param with current_value := param.default_value }),
                  current_analysis := AnalysisResult.new }

/-- The inline member function `set_analysis_enabled`. -/
def set_analysis_enabled (s : State) (enabled : Bool) : State :=
  { s with analysis_enabled := enabled }

/-! ## Reachable states -/

/-- One call on the plugin object, or one iteration of its worker thread. -/
inductive Op where
  | initialize_plugin (sample_rate block_size : Int) (py : PyInit)
  | process (left_channel right_channel : List F32) (num_samples : Int)
  | shutdown
  | reset
  | add_parameter (param : PluginParameter)
  | set_parameter (param_id : Int) (value : F32)
  | analyze_buffer (call : EngineCall)
  | save_preset (slot : Int) (name : String)
  | load_preset (slot : Int)
  | set_analysis_enabled (enabled : Bool)
  | analysis_worker_iteration

/-- The state after one call, when the call returns normally. -/
def step (s : State) : Op → Option State
  | Op.initialize_plugin sample_rate block_size py =>
    some (initialize_plugin s sample_rate block_size py)
  | Op.process l r n => process s l r n
  | Op.shutdown => shutdown s
  | Op.reset => reset s
  | Op.add_parameter param => some (add_parameter s param)
  | Op.set_parameter param_id value => some (set_parameter s param_id value).2
  | Op.analyze_buffer call => (analyze_buffer s call).map Prod.snd
  | Op.save_preset slot name => some (save_preset s slot name).2
  | Op.load_preset slot => some (load_preset s slot).2
  | Op.set_analysis_enabled enabled => some (set_analysis_enabled s enabled)
  | Op.analysis_worker_iteration =>
    if s.analysis_thread then analysis_worker_iteration s else some s

/-- The state after a sequence of calls, first call first, when every call returns
normally. -/
def run (s : State) : List Op → Option State
  | [] => some s
  | op :: ops =>
    match step s op with
    | none => none
    | some t => run t ops

/-- A state the plugin object can be in: some sequence of calls on a freshly
constructed object, each returning normally, leads to it. -/
def Reachable (s : State) : Prop := ∃ ops : List Op, run State.new ops = some s

/-! ## Specification-side definitions -/

/-- The clamp of the specification: `lo` if `v < lo`, `hi` if `v > hi`, and `v`
otherwise. -/
def spec_clamp (v lo hi : F32) : F32 :=
  if F32.lt v lo then lo else if F32.lt hi v then hi else v

/-- The calls of the parameter registry and the preset bank: `add_parameter`,
`set_parameter`, `reset`, `save_preset` and `load_preset`. -/
def Op.isRegistryCall : Op → Bool
  | Op.add_parameter _ => true
  | Op.set_parameter _ _ => true
  | Op.reset => true
  | Op.save_preset _ _ => true
  | Op.load_preset _ => true
  | _ => false

/-- The range condition `min_value <= current_value <= max_value` of a parameter. -/
def InRange (param : PluginParameter) : Prop :=
  F32.le param.min_value param.current_value = true ∧
    F32.le param.current_value param.max_value = true

instance (param : PluginParameter) : Decidable (InRange param) := by
  unfold InRange; infer_instance

/-- The parameter without its current value: what `set_parameter`, `load_preset` and
`reset` never change. -/
def PluginParameter.shape (param : PluginParameter) : PluginParameter :=
  { param with current_value := F32.zero }

/-- The ids of the registered parameters, in registration order. -/
def param_ids (s : State) : List Int := s.parameters.map PluginParameter.id

/-- Consistency of `param_id_to_index_` with `parameters_`: an id maps to the position of
the last parameter registered under it, and every registered id is mapped. -/
def RegistryOk (s : State) : Prop :=
  (∀ id index, s.param_id_to_index.find id = some index →
      (param_ids s)[index]? = some id ∧
        ∀ j, index < j → (param_ids s)[j]? ≠ some id) ∧
  (∀ id ∈ param_ids s, (s.param_id_to_index.find id).isSome = true)

/-- Consistency of `preset_slots_`: no slot before `initialize` succeeds and 128 slots
ever after, each a well-formed `std::map`. -/
def PresetsOk (s : State) : Prop :=
  (s.preset_slots.length = 0 ∨ s.preset_slots.length = 128) ∧
  (s.is_initialized = true → s.preset_slots.length = 128) ∧
  (∀ preset ∈ s.preset_slots, StdMap.Ordered preset.parameter_values)

/-- The range condition `min_value <= default_value <= max_value` of a parameter. -/
def DefaultInRange (param : PluginParameter) : Prop :=
  F32.le param.min_value param.default_value = true ∧
    F32.le param.default_value param.max_value = true

instance (param : PluginParameter) : Decidable (DefaultInRange param) := by
  unfold DefaultInRange; infer_instance

/-- Every registered parameter has its current and its default value within
`[min_value, max_value]`. -/
def RangeOk (s : State) : Prop :=
  ∀ param ∈ s.parameters, InRange param ∧ DefaultInRange param

/-- The parameter after the two statements `value = std::max(param.min_value,
std::min(value, param.max_value)); param.current_value = value;` of `set_parameter`. -/
def PluginParameter.store (param : PluginParameter) (value : F32) : PluginParameter :=
  { param with current_value := std_max param.min_value (std_min value param.max_value) }

/-- The slot contents after the body of `save_preset`: the new name, and the old map
with the current value of every parameter assigned under its id. -/
def Preset.saved (preset : Preset) (name : String) (params : List PluginParameter) : Preset :=
  { name := name, parameter_values := save_values preset.parameter_values params }

/-- The slot is unoccupied, as far as it exists: its name is empty. -/
def SlotEmpty (s : State) (slot : Int) : Prop :=
  ∀ preset, s.preset_slots[slot.toNat]? = some preset → preset.name = ""

/-- An initialized plugin with one parameter, id 1, range `[0, 1]`, whose default value
`5` lies outside its range. -/
def state_default_out_of_range : State :=
  initialize_plugin
    (add_parameter State.new
      (PluginParameter.new 1 "gain" (F32.num 0) (F32.num 1) (F32.num 5) "f"))
    44100 512 PyInit.ok

/-- An initialized plugin with two parameters, ids 1 and 2, each within its range. -/
def state_two_parameters : State :=
  initialize_plugin
    (add_parameter
      (add_parameter State.new
        (PluginParameter.new 1 "gain" (F32.num 0) (F32.num 1) (F32.num 1) "f"))
      (PluginParameter.new 2 "mix" (F32.num 0) (F32.num 10) (F32.num 3) "f"))
    44100 512 PyInit.ok

/-- A run that registers a parameter, initializes, saves slot 3 and writes the
parameter. -/
def calls_saving_slot_three : List Op :=
  [Op.add_parameter (PluginParameter.new 1 "gain" (F32.num 0) (F32.num 1) (F32.num 1) "f"),
   Op.initialize_plugin 44100 512 PyInit.ok,
   Op.save_preset 3 "lead",
   Op.set_parameter 1 (F32.num 0)]

/-- The display value of frame `i` of a buffer whose channels hold that frame, as one
iteration of the loop of `extract_waveform` computes it: the mean of both channels when
the buffer is stereo and has a right channel, the left sample otherwise. -/
def frame_value {F : Type} [Add F] [Div F] [OfNat F 2] [Inhabited F]
    (buffer : AudioBuffer F) (i : Nat) : F :=
  match buffer.is_stereo, buffer.right with
  | true, some right => (buffer.left.getD i default + right.getD i default) / 2
  | _, _ => buffer.left.getD i default


/-- The number of iterations of the loop of `extract_waveform` that start at or after
frame `0` of `n` remaining frames, in integer arithmetic. -/
def loop_count (n step : Nat) : Nat := (n + step - 1) / step

/-- The number of output samples the specification gives: `ceil(n / step)`, the ceiling
of the exact quotient. -/
def spec_waveform_length (n step : Nat) : Nat := ⌈(n : ℚ) / (step : ℚ)⌉₊

/-- The `step` of `extract_waveform` for a block of `n` frames: `max(1, n / 1000)`. -/
def waveform_step (n : Nat) : Nat := max 1 (n / 1000)

/-- The last value the loop counter of `extract_waveform` takes for a block of `n`
frames: `ceil(n / step) * step`, reached by the `i += step` that ends the last
iteration. -/
def last_counter (n : Nat) : Nat := spec_waveform_length n (waveform_step n) * waveform_step n

/-- The queue element that `push` makes of a buffer. -/
def queued {F : Type} (buffer : AudioBuffer F) : QueuedBuffer :=
  { num_samples := buffer.num_samples, sample_rate := buffer.sample_rate,
    is_stereo := buffer.is_stereo }

/-- A stereo block of three frames. -/
def buffer_three_frames : AudioBuffer F32 :=
  { left := [F32.num 1, F32.num 2, F32.num 3],
    right := some [F32.num 3, F32.num 4, F32.num 5],
    num_samples := 3, sample_rate := 44100, is_stereo := true }

/-- The local `buffer` of `process`: a stereo `AudioBuffer` of `num_samples` frames at the
plugin's sample rate, filled by the two `memcpy` calls. -/
def process_buffer (sample_rate : Int) (left_channel right_channel : List F32)
    (num_samples : Int) : AudioBuffer F32 :=
  { left := left_channel.take num_samples.toNat,
    right := some (right_channel.take num_samples.toNat),
    num_samples := num_samples, sample_rate := sample_rate, is_stereo := true }

/-- The plugin after the queueing step of `process`: the member-wise copy of the buffer
is pushed when analysis is enabled. -/
def process_enqueue (s : State) (buffer : AudioBuffer F32) : State :=
  if s.analysis_enabled then { s with analysis_queue := s.analysis_queue ++ [queued buffer] }
  else s

/-- One `process` call for each block `(left, right, num_samples)`, in order. -/
def process_calls (blocks : List (List F32 × List F32 × Int)) : List Op :=
  blocks.map (fun block => Op.process block.1 block.2.1 block.2.2)

/-- A running plugin (analysis enabled, empty queue) right after `initialize`. -/
def state_running : State := initialize_plugin State.new 44100 512 PyInit.ok

/-- The block is one `process` handles within defined behaviour: a sample count that is
not negative, channels that hold that many samples, and, when the count is a multiple of
64 so that the waveform is extracted, a loop counter that stays within `int`. -/
def BlockOk (block : List F32 × List F32 × Int) : Prop :=
  0 ≤ block.2.2 ∧ block.2.2.toNat ≤ block.1.length ∧ block.2.2.toNat ≤ block.2.1.length ∧
    (Int.tmod block.2.2 64 = 0 → last_counter block.2.2.toNat ≤ 2147483647)

/-- A one-frame block whose only sample, on both channels, is the tag `t`. -/
def tagged_block (t : ℚ) : List F32 × List F32 × Int :=
  ([F32.num t], [F32.num t], 1)

/-- What a float field of the result holds after `parse_analysis_result`: the value
under `key` when the dictionary has one that is a Python float, the previous value
otherwise. -/
def float_field (py_dict : PyObject) (key : String) (previous : F32) : F32 :=
  match py_dict.getItemString key with
  | some (PyObject.float x) => x
  | _ => previous

/-- What a string field of the result holds after `parse_analysis_result`: the value
under `key`, up to its first NUL, when the dictionary has one that is a Python string
with a UTF-8 encoding, the previous value otherwise. -/
def string_field (py_dict : PyObject) (key : String) (previous : String) : String :=
  match py_dict.getItemString key with
  | some (PyObject.unicode (some utf8)) => c_str utf8
  | _ => previous

/-- The value under `key`, if any, is not a string without UTF-8 encoding. -/
def Encodable (py_dict : PyObject) (key : String) : Prop :=
  py_dict.getItemString key ≠ some (PyObject.unicode none)

/-- The call leaves no dictionary to parse: no engine function, or, with an engine
function the plugin owns, a failed conversion to a numpy array, a null result, or a
result that is not a dictionary. -/
def NoDictionary (s : State) (call : EngineCall) : Prop :=
  s.pAnalyzeFunc = Handle.null ∨
    (s.pAnalyzeFunc = Handle.owned ∧
      (call = EngineCall.numpy_fails ∨ call = EngineCall.returns none ∨
        ∃ r, call = EngineCall.returns (some r) ∧ r.isDict = false))

/-- The result of an earlier analysis. -/
def result_previous : AnalysisResult :=
  { tempo_bpm := F32.num 100, key := "C", primary_genre := "house", mood := "dark",
    energy_level := F32.num 1, confidence_score := F32.num 1,
    duration_seconds := F32.num 0, extended_features := [] }

/-- The engine response that gave `result_previous`. -/
def response_previous : PyObject :=
  PyObject.dict
    [("tempo_bpm", PyObject.float (F32.num 100)), ("key", PyObject.unicode (some "C")),
     ("primary_genre", PyObject.unicode (some "house")),
     ("mood", PyObject.unicode (some "dark")),
     ("energy_level", PyObject.float (F32.num 1)),
     ("confidence_score", PyObject.float (F32.num 1))]

/-- A running plugin whose current result is `result_previous`. -/
def state_analyzed : State := { state_running with current_analysis := result_previous }

/-- An engine response with a new tempo and a key of the wrong type, nothing else. -/
def response_partial : PyObject :=
  PyObject.dict [("tempo_bpm", PyObject.float (F32.num 120)), ("key", PyObject.long 5)]

/-- An engine response with all six fields, each of the right type. -/
def response_full : PyObject :=
  PyObject.dict
    [("tempo_bpm", PyObject.float (F32.num 120)), ("key", PyObject.unicode (some "Am")),
     ("primary_genre", PyObject.unicode (some "techno")),
     ("mood", PyObject.unicode (some "bright")),
     ("energy_level", PyObject.float (F32.num 2)),
     ("confidence_score", PyObject.float (F32.num 3))]

/-- An engine response whose `key` is the three-character string `A`, NUL, `B`. -/
def response_nul_key : PyObject :=
  PyObject.dict [("key", PyObject.unicode (some (String.mk ['A', Char.ofNat 0, 'B'])))]

/-- An engine response whose `mood` is a string without UTF-8 encoding. -/
def response_unencodable_mood : PyObject :=
  PyObject.dict [("tempo_bpm", PyObject.float (F32.num 120)), ("mood", PyObject.unicode none)]

/-- A block of `n` silent frames on both channels. -/
def silent_block (n : Nat) : List F32 × List F32 × Int :=
  (List.replicate n (F32.num 0), List.replicate n (F32.num 0), (n : Int))

/-- The parameter `gain`, id 1, range `[0, 1]`, default `0`. -/
def gain_parameter : PluginParameter :=
  PluginParameter.new 1 "gain" (F32.num 0) (F32.num 1) (F32.num 0) "%.2f"

/-- The buffer `process` builds from a block of `INT_MAX` silent frames. -/
def buffer_int_max_frames : AudioBuffer F32 :=
  process_buffer 44100 (List.replicate 2147483647 (F32.num 0))
    (List.replicate 2147483647 (F32.num 0)) 2147483647

/-- The buffer `process` builds from a block of 1999 silent frames. -/
def buffer_1999_frames : AudioBuffer F32 :=
  process_buffer 44100 (silent_block 1999).1 (silent_block 1999).2.1 (silent_block 1999).2.2

/-! ## Lemmas on `float` comparisons and `std::map` -/

theorem std_clamp_eq_spec_clamp (v lo hi : F32) (hle : F32.le lo hi = true)
    (hv : v ≠ F32.nan) : std_max lo (std_min v hi) = spec_clamp v lo hi := by
  cases v with
  | nan => exact absurd rfl hv
  | num x =>
    cases lo with
    | nan => simp [F32.le] at hle
    | num a =>
      cases hi with
      | nan => simp [F32.le] at hle
      | num b =>
        simp only [F32.le, decide_eq_true_eq] at hle
        simp only [std_max, std_min, spec_clamp, F32.lt, decide_eq_true_eq]
        by_cases h1 : b < x
        · have h2 : ¬ x < a := not_lt.mpr (le_trans hle (le_of_lt h1))
          rcases lt_or_eq_of_le hle with h3 | h3
          · simp [h1, h2, h3]
          · subst h3; simp [h1, h2]
        · by_cases h2 : x < a
          · have h4 : ¬ a < x := not_lt.mpr (le_of_lt h2)
            simp [h1, h2, h4]
          · have h3 : ¬ a < x ∨ a < x := (em (a < x)).symm
            rcases h3 with h3 | h3
            · have : a = x := le_antisymm (not_lt.mp h2) (not_lt.mp h3)
              subst this; simp [h1]
            · simp [h1, h2, h3]

theorem std_clamp_nan (lo hi : F32) : std_max lo (std_min F32.nan hi) = lo := by
  cases lo <;> cases hi <;> simp [std_max, std_min, F32.lt]

theorem std_clamp_in_range (v lo hi : F32) (hle : F32.le lo hi = true) :
    F32.le lo (std_max lo (std_min v hi)) = true ∧
      F32.le (std_max lo (std_min v hi)) hi = true := by
  cases lo with
  | nan => simp [F32.le] at hle
  | num a =>
    cases hi with
    | nan => simp [F32.le] at hle
    | num b =>
      simp only [F32.le, decide_eq_true_eq] at hle
      cases v with
      | nan => simp [std_max, std_min, F32.lt, F32.le, hle]
      | num x =>
        simp only [std_max, std_min, F32.lt, decide_eq_true_eq]
        by_cases h1 : b < x
        · by_cases h3 : a < b
          · simp [h1, h3, F32.le, hle]
          · simp [h1, h3, F32.le, hle]
        · by_cases h3 : a < x
          · simp [h1, h3, F32.le, le_of_lt h3, not_lt.mp h1]
          · simp [h1, h3, F32.le, hle]

theorem F32_le_trans {a b c : F32} (hab : F32.le a b = true) (hbc : F32.le b c = true) :
    F32.le a c = true := by
  cases a <;> cases b <;> cases c <;> simp_all [F32.le]
  exact le_trans hab hbc

theorem StdMap.find_assign {V : Type} (m : StdMap V) (k : Int) (v : V) (k' : Int) :
    (m.assign k v).find k' = if k' = k then some v else m.find k' := by
  induction m with
  | nil => simp [StdMap.assign, StdMap.find]
  | cons e rest ih =>
    obtain ⟨k0, v0⟩ := e
    simp only [StdMap.assign]
    by_cases h1 : k < k0
    · simp only [h1, if_true, StdMap.find]
    · simp only [h1, if_false]
      by_cases h2 : k = k0
      · subst h2
        simp only [if_true, StdMap.find]
        by_cases h3 : k' = k <;> simp [h3]
      · simp only [h2, if_false, StdMap.find, ih]
        by_cases h3 : k' = k0
        · subst h3
          have h4 : ¬ k' = k := fun h => h2 h.symm
          simp [h4]
        · simp [h3]

theorem StdMap.find_assign_self {V : Type} (m : StdMap V) (k : Int) (v : V) :
    (m.assign k v).find k = some v := by
  rw [StdMap.find_assign]; simp

theorem StdMap.find_assign_ne {V : Type} (m : StdMap V) (k : Int) (v : V) (k' : Int)
    (h : k' ≠ k) : (m.assign k v).find k' = m.find k' := by
  rw [StdMap.find_assign]; simp [h]

theorem StdMap.mem_keys_assign {V : Type} (m : StdMap V) (k : Int) (v : V) (k' : Int) :
    k' ∈ StdMap.keys (m.assign k v) ↔ k' = k ∨ k' ∈ StdMap.keys m := by
  induction m with
  | nil => simp [StdMap.assign, StdMap.keys]
  | cons e rest ih =>
    obtain ⟨k0, v0⟩ := e
    simp only [StdMap.keys] at ih
    simp only [StdMap.assign]
    by_cases h1 : k < k0
    · simp [h1, StdMap.keys]
    · simp only [h1, if_false]
      by_cases h2 : k = k0
      · subst h2; simp [StdMap.keys]
      · simp only [h2, if_false, StdMap.keys, List.map_cons, List.mem_cons, ih]
        tauto

theorem StdMap.ordered_assign {V : Type} (m : StdMap V) (k : Int) (v : V)
    (hm : StdMap.Ordered m) : StdMap.Ordered (m.assign k v) := by
  induction m with
  | nil => simp [StdMap.assign, StdMap.Ordered, StdMap.keys]
  | cons e rest ih =>
    obtain ⟨k0, v0⟩ := e
    have hm' := hm
    simp only [StdMap.Ordered, StdMap.keys, List.map_cons, List.pairwise_cons] at hm
    obtain ⟨hhead, htail⟩ := hm
    simp only [StdMap.assign]
    by_cases h1 : k < k0
    · simp only [h1, if_true, StdMap.Ordered, StdMap.keys, List.map_cons, List.pairwise_cons]
      refine ⟨?_, hhead, htail⟩
      intro a ha
      simp only [List.mem_cons] at ha
      rcases ha with ha | ha
      · rw [ha]; exact h1
      · exact lt_trans h1 (hhead a ha)
    · simp only [h1, if_false]
      by_cases h2 : k = k0
      · subst h2
        simp only [if_true, StdMap.Ordered, StdMap.keys, List.map_cons, List.pairwise_cons]
        exact ⟨hhead, htail⟩
      · simp only [h2, if_false, StdMap.Ordered, StdMap.keys, List.map_cons,
          List.pairwise_cons]
        refine ⟨?_, ih htail⟩
        intro a ha
        have ha' : a ∈ StdMap.keys (StdMap.assign rest k v) := ha
        rw [StdMap.mem_keys_assign] at ha'
        rcases ha' with ha' | ha'
        · rw [ha']
          exact lt_of_le_of_ne (not_lt.mp h1) (fun h => h2 h.symm)
        · exact hhead a ha'

/-! ## Parameter registry: `set_parameter` and `get_parameter` -/

theorem set_parameter_registered (s : State) (param_id : Int) (value : F32) (index : Nat)
    (param : PluginParameter) (hfind : s.param_id_to_index.find param_id = some index)
    (hparam : s.parameters[index]? = some param) :
    set_parameter s param_id value =
      (true, { s with
        parameters := s.parameters.set index { param with
          current_value := std_max param.min_value (std_min value param.max_value) } }) := by
  simp [set_parameter, hfind, hparam]

theorem get_after_set_parameter (s : State) (param_id : Int) (value : F32) (index : Nat)
    (param : PluginParameter) (hfind : s.param_id_to_index.find param_id = some index)
    (hparam : s.parameters[index]? = some param) :
    get_parameter (set_parameter s param_id value).2 param_id =
      std_max param.min_value (std_min value param.max_value) := by
  have hlt : index < s.parameters.length := by
    by_contra h
    rw [List.getElem?_eq_none (not_lt.mp h)] at hparam
    cases hparam
  rw [set_parameter_registered s param_id value index param hfind hparam]
  simp [get_parameter, hfind, List.getElem?_set_self, hlt]

/-- C1 (as amended): for a registered parameter id whose `min_value <= max_value`,
`set_parameter(id, v)` returns true and a following `get_parameter(id)` returns the
clamp of `v` to `[min_value, max_value]` when `v` is not NaN, and `min_value` when `v`
is NaN. -/
theorem C1_set_then_get_clamps (s : State) (param_id : Int) (v : F32) (index : Nat)
    (param : PluginParameter) (hfind : s.param_id_to_index.find param_id = some index)
    (hparam : s.parameters[index]? = some param)
    (hle : F32.le param.min_value param.max_value = true) :
    (set_parameter s param_id v).1 = true ∧
      (v ≠ F32.nan → get_parameter (set_parameter s param_id v).2 param_id =
        spec_clamp v param.min_value param.max_value) ∧
      (v = F32.nan → get_parameter (set_parameter s param_id v).2 param_id =
        param.min_value) := by
  refine ⟨?_, ?_, ?_⟩
  · rw [set_parameter_registered s param_id v index param hfind hparam]
  · intro hv
    rw [get_after_set_parameter s param_id v index param hfind hparam]
    exact std_clamp_eq_spec_clamp v _ _ hle hv
  · intro hv
    rw [get_after_set_parameter s param_id v index param hfind hparam, hv]
    exact std_clamp_nan _ _

/-- C1, the claim as stated fails for a NaN value: on a registry holding one
parameter with id 1 and range `[0, 1]`, `set_parameter(1, NaN)` returns true and stores
`min_value = 0`, while the clamp of the specification leaves a value that is neither below
`min_value` nor above `max_value` as it is. -/
theorem C1_nan_counterexample :
    (add_parameter State.new (PluginParameter.new 1 "gain" (F32.num 0) (F32.num 1)
        (F32.num 0) "%.2f")).param_id_to_index.find 1 = some 0 ∧
    F32.le (F32.num 0) (F32.num 1) = true ∧
    get_parameter (set_parameter (add_parameter State.new (PluginParameter.new 1 "gain"
        (F32.num 0) (F32.num 1) (F32.num 0) "%.2f")) 1 F32.nan).2 1 = F32.num 0 ∧
    spec_clamp F32.nan (F32.num 0) (F32.num 1) = F32.nan ∧
    get_parameter (set_parameter (add_parameter State.new (PluginParameter.new 1 "gain"
        (F32.num 0) (F32.num 1) (F32.num 0) "%.2f")) 1 F32.nan).2 1 ≠
      spec_clamp F32.nan (F32.num 0) (F32.num 1) := by
  decide

/-- C1, a concrete instance: a parameter with range `[0, 1]`, set to `5`, reads back
`1`. -/
theorem C1_set_then_get_clamps_witness :
    (set_parameter (add_parameter State.new
        (PluginParameter.new 1 "gain" (F32.num 0) (F32.num 1) (F32.num 0) "%.2f"))
      1 (F32.num 5)).1 = true ∧
    get_parameter (set_parameter (add_parameter State.new
        (PluginParameter.new 1 "gain" (F32.num 0) (F32.num 1) (F32.num 0) "%.2f"))
      1 (F32.num 5)).2 1 = F32.num 1 := by
  have h := C1_set_then_get_clamps (add_parameter State.new
      (PluginParameter.new 1 "gain" (F32.num 0) (F32.num 1) (F32.num 0) "%.2f"))
    1 (F32.num 5) 0 (PluginParameter.new 1 "gain" (F32.num 0) (F32.num 1) (F32.num 0) "%.2f")
    (by decide) (by decide) (by decide)
  refine ⟨h.1, ?_⟩
  rw [h.2.1 (by decide)]
  decide

/-! ## What each call does to the registry -/

theorem set_parameter_frame (s : State) (param_id : Int) (value : F32) :
    ∃ ps : List PluginParameter,
      (set_parameter s param_id value).2 = { s with parameters := ps } ∧
      ps.map PluginParameter.shape = s.parameters.map PluginParameter.shape := by
  cases hfind : s.param_id_to_index.find param_id with
  | none => exact ⟨s.parameters, by simp [set_parameter, hfind], rfl⟩
  | some index =>
    cases hparam : s.parameters[index]? with
    | none => exact ⟨s.parameters, by simp [set_parameter, hfind, hparam], rfl⟩
    | some param =>
      rw [set_parameter_registered s param_id value index param hfind hparam]
      refine ⟨_, rfl, ?_⟩
      apply List.ext_getElem?
      intro i
      simp only [List.getElem?_map, List.getElem?_set]
      by_cases hi : index = i
      · subst hi
        have hlt : index < s.parameters.length := by
          by_contra h
          rw [List.getElem?_eq_none (not_lt.mp h)] at hparam
          cases hparam
        simp [hparam, hlt, PluginParameter.shape]
      · simp [hi]

theorem load_values_frame (values : StdMap F32) (s : State) :
    ∃ ps : List PluginParameter,
      load_values s values = { s with parameters := ps } ∧
      ps.map PluginParameter.shape = s.parameters.map PluginParameter.shape := by
  induction values generalizing s with
  | nil => exact ⟨s.parameters, rfl, rfl⟩
  | cons e rest ih =>
    obtain ⟨param_id, value⟩ := e
    obtain ⟨ps1, h1, hs1⟩ := set_parameter_frame s param_id value
    obtain ⟨ps2, h2, hs2⟩ := ih (set_parameter s param_id value).2
    refine ⟨ps2, ?_, ?_⟩
    · simp only [load_values]
      rw [h2, h1]
    · rw [hs2, h1]
      exact hs1

theorem shape_ids (ps qs : List PluginParameter)
    (h : ps.map PluginParameter.shape = qs.map PluginParameter.shape) :
    ps.map PluginParameter.id = qs.map PluginParameter.id := by
  have h2 := congrArg (List.map PluginParameter.id) h
  simpa [List.map_map, Function.comp_def, PluginParameter.shape] using h2

theorem initialize_plugin_registry (s : State) (sample_rate block_size : Int) (py : PyInit) :
    (initialize_plugin s sample_rate block_size py).parameters = s.parameters ∧
    (initialize_plugin s sample_rate block_size py).param_id_to_index =
      s.param_id_to_index := by
  unfold initialize_plugin
  by_cases h : s.is_initialized = true
  · simp [h]
  · simp only [h]
    cases py <;> simp [initialize_python]

theorem extract_waveform_some (s : State) (buffer : AudioBuffer F32) (t : State)
    (h : extract_waveform s buffer = some t) :
    ∃ waveform, extract_waveform_samples buffer = some waveform ∧
      t = { s with waveform_data := waveform } := by
  unfold extract_waveform at h
  cases hw : extract_waveform_samples buffer with
  | none => simp [hw] at h
  | some waveform =>
    simp only [hw, Option.some.injEq] at h
    exact ⟨waveform, rfl, h.symm⟩

theorem process_not_initialized (s : State) (l r : List F32) (n : Int)
    (hinit : s.is_initialized = false) : process s l r n = some s := by
  simp [process, hinit]

theorem process_initialized (s : State) (l r : List F32) (n : Int)
    (hinit : s.is_initialized = true) (h0 : 0 ≤ n) (hl : n.toNat ≤ l.length)
    (hr : n.toNat ≤ r.length) :
    process s l r n =
      if Int.tmod n 64 = 0 then
        extract_waveform (process_enqueue s (process_buffer s.sample_rate l r n))
          (process_buffer s.sample_rate l r n)
      else some (process_enqueue s (process_buffer s.sample_rate l r n)) := by
  have h1 : ¬ n < 0 := not_lt.mpr h0
  have h2 : ¬ (l.length < n.toNat ∨ r.length < n.toNat) := by omega
  have h3 : ¬ ((!s.is_initialized) = true) := by simp [hinit]
  unfold process
  rw [if_neg h3, if_neg h1, if_neg h2]
  rfl

/-- On an initialized plugin a negative sample count makes the constructor of the local
buffer throw: `process` does not return normally. -/
theorem process_negative (s : State) (l r : List F32) (n : Int)
    (hinit : s.is_initialized = true) (hn : n < 0) : process s l r n = none := by
  have h3 : ¬ ((!s.is_initialized) = true) := by simp [hinit]
  unfold process
  rw [if_neg h3, if_pos hn]

/-- A `process` call that returns normally changes the queue and the waveform only. -/
theorem process_some (s : State) (l r : List F32) (n : Int) (t : State)
    (h : process s l r n = some t) :
    ∃ queue waveform, t = { s with analysis_queue := queue, waveform_data := waveform } := by
  by_cases hinit : s.is_initialized = true
  · by_cases h0 : 0 ≤ n
    · by_cases hlen : n.toNat ≤ l.length ∧ n.toNat ≤ r.length
      · rw [process_initialized s l r n hinit h0 hlen.1 hlen.2] at h
        have henq : ∃ queue, process_enqueue s (process_buffer s.sample_rate l r n) =
            { s with analysis_queue := queue } := by
          unfold process_enqueue
          split
          · exact ⟨_, rfl⟩
          · exact ⟨s.analysis_queue, rfl⟩
        obtain ⟨queue, hq⟩ := henq
        rw [hq] at h
        split at h
        · obtain ⟨waveform, _, ht⟩ := extract_waveform_some _ _ _ h
          exact ⟨queue, waveform, ht⟩
        · exact ⟨queue, s.waveform_data, (Option.some.inj h).symm⟩
      · have h2 : l.length < n.toNat ∨ r.length < n.toNat := by omega
        have h1 : ¬ n < 0 := not_lt.mpr h0
        have h3 : ¬ ((!s.is_initialized) = true) := by simp [hinit]
        unfold process at h
        rw [if_neg h3, if_neg h1, if_pos h2] at h
        cases h
    · have h1 : n < 0 := not_le.mp h0
      have h3 : ¬ ((!s.is_initialized) = true) := by simp [hinit]
      unfold process at h
      rw [if_neg h3, if_pos h1] at h
      cases h
  · have hfalse : s.is_initialized = false := by simpa using hinit
    rw [process_not_initialized s l r n hfalse] at h
    exact ⟨s.analysis_queue, s.waveform_data, (Option.some.inj h).symm⟩

/-- An `analyze_buffer` call that returns normally changes the current result only. -/
theorem analyze_buffer_some (s : State) (call : EngineCall) (res : AnalysisResult) (t : State)
    (h : analyze_buffer s call = some (res, t)) :
    ∃ current, t = { s with current_analysis := current } := by
  unfold analyze_buffer at h
  split at h
  · simp only [Option.some.injEq, Prod.mk.injEq] at h
    exact ⟨s.current_analysis, h.2.symm⟩
  · cases h
  · split at h
    · simp only [Option.some.injEq, Prod.mk.injEq] at h
      exact ⟨s.current_analysis, h.2.symm⟩
    · split at h
      · split at h
        · split at h
          · cases h
          · simp only [Option.some.injEq, Prod.mk.injEq] at h
            exact ⟨_, h.2.symm⟩
        · simp only [Option.some.injEq, Prod.mk.injEq] at h
          exact ⟨s.current_analysis, h.2.symm⟩
      · simp only [Option.some.injEq, Prod.mk.injEq] at h
        exact ⟨s.current_analysis, h.2.symm⟩

/-- An iteration of the worker that stays within defined behaviour changes nothing. -/
theorem analysis_worker_iteration_some (s t : State)
    (h : analysis_worker_iteration s = some t) : t = s := by
  unfold analysis_worker_iteration at h
  split at h
  · exact (Option.some.inj h).symm
  · split at h
    · cases h
    · split at h
      · exact (Option.some.inj h).symm
      · cases h

theorem cleanup_python_some (s t : State) (h : cleanup_python s = some t) :
    ∃ a b c d, t = { s with pAnalyzeFunc := a, pProcessFunc := b, pPythonPlugin := c,
                            pPythonModule := d } := by
  unfold cleanup_python at h
  cases h1 : s.pAnalyzeFunc.xdecref <;> cases h2 : s.pProcessFunc.xdecref <;>
    cases h3 : s.pPythonPlugin.xdecref <;> cases h4 : s.pPythonModule.xdecref <;>
    simp [h1, h2, h3, h4, bind, pure] at h
  exact ⟨_, _, _, _, h.symm⟩

/-- A `shutdown` that returns normally changes the thread members, the Python handles
and the lifecycle flag only. -/
theorem shutdown_some (s t : State) (h : shutdown s = some t) :
    t.parameters = s.parameters ∧ t.param_id_to_index = s.param_id_to_index ∧
    t.preset_slots = s.preset_slots ∧ t.is_initialized = false ∧
    t.analysis_queue = s.analysis_queue ∧ t.waveform_data = s.waveform_data := by
  unfold shutdown at h
  split at h
  · cases h
  · rename_i u hu
    obtain ⟨a, b, c, d, hu'⟩ := cleanup_python_some _ _ hu
    have ht := (Option.some.inj h).symm
    subst ht
    subst hu'
    exact ⟨rfl, rfl, rfl, rfl, rfl, rfl⟩

/-- A `reset` that returns normally found the queue empty; it restores the defaults and
the default result and changes nothing else. -/
theorem reset_some (s t : State) (h : reset s = some t) :
    s.analysis_queue = [] ∧
    t = { s with
      analysis_queue := []
      parameters := s.parameters.map
        (fun param => { param with current_value := param.default_value })
      current_analysis := AnalysisResult.new } := by
  unfold reset at h
  split at h
  · cases h
  · rename_i hq
    exact ⟨hq, (Option.some.inj h).symm⟩

theorem reset_shape (s t : State) (h : reset s = some t) :
    t.parameters.map PluginParameter.shape = s.parameters.map PluginParameter.shape := by
  rw [(reset_some s t h).2]
  simp [List.map_map, Function.comp_def, PluginParameter.shape]

/-- With nothing queued, `reset` returns; it puts every parameter back to its default and
the current result to the default `AnalysisResult`, and changes nothing else. -/
theorem reset_empty_queue (s : State) (hqueue : s.analysis_queue = []) :
    reset s = some { s with
      parameters := s.parameters.map
        (fun param => { param with current_value := param.default_value })
      current_analysis := AnalysisResult.new } := by
  unfold reset
  rw [hqueue]

/-- With a block queued, `reset` has no defined result. -/
theorem reset_queued (s : State) (hqueue : s.analysis_queue ≠ []) : reset s = none := by
  unfold reset
  cases hq : s.analysis_queue with
  | nil => exact absurd hq hqueue
  | cons first rest => rfl

theorem save_preset_registry (s : State) (slot : Int) (name : String) :
    (save_preset s slot name).2.parameters = s.parameters ∧
    (save_preset s slot name).2.param_id_to_index = s.param_id_to_index ∧
    (save_preset s slot name).2.is_initialized = s.is_initialized := by
  unfold save_preset
  by_cases h : slot < 0 ∨ slot ≥ (s.preset_slots.length : Int)
  · simp [h]
  · simp only [h, if_false]
    cases s.preset_slots[slot.toNat]? <;> simp

theorem load_preset_frame (s : State) (slot : Int) :
    ∃ ps : List PluginParameter,
      (load_preset s slot).2 = { s with parameters := ps } ∧
      ps.map PluginParameter.shape = s.parameters.map PluginParameter.shape := by
  unfold load_preset
  by_cases h : slot < 0 ∨ slot ≥ (s.preset_slots.length : Int)
  · simp only [h, if_true]; exact ⟨s.parameters, rfl, rfl⟩
  · simp only [h, if_false]
    cases hp : s.preset_slots[slot.toNat]? with
    | none => exact ⟨s.parameters, rfl, rfl⟩
    | some preset =>
      by_cases hn : preset.name = ""
      · simp only [hn, if_true]; exact ⟨s.parameters, rfl, rfl⟩
      · simp only [hn, if_false]
        exact load_values_frame preset.parameter_values s

/-- What one call that returns normally may change, apart from the parameter vector and
the index map: the members the invariants below depend on are the preset slots and the
lifecycle flag. -/
theorem step_some_cases (s t : State) (op : Op) (h : step s op = some t) :
    (∃ sr bs py, op = Op.initialize_plugin sr bs py ∧ t = initialize_plugin s sr bs py) ∨
    (∃ param, op = Op.add_parameter param ∧ t = add_parameter s param) ∨
    (∃ param_id value, op = Op.set_parameter param_id value ∧
      t = (set_parameter s param_id value).2) ∨
    (∃ slot name, op = Op.save_preset slot name ∧ t = (save_preset s slot name).2) ∨
    (∃ slot, op = Op.load_preset slot ∧ t = (load_preset s slot).2) ∨
    (op = Op.reset ∧ reset s = some t) ∨
    (t.parameters = s.parameters ∧ t.param_id_to_index = s.param_id_to_index ∧
      t.preset_slots = s.preset_slots ∧
      (t.is_initialized = s.is_initialized ∨ t.is_initialized = false)) := by
  cases op with
  | initialize_plugin sr bs py =>
    exact Or.inl ⟨sr, bs, py, rfl, (Option.some.inj h).symm⟩
  | process l r n =>
    obtain ⟨q, w, ht⟩ := process_some s l r n t h
    subst ht
    exact Or.inr (Or.inr (Or.inr (Or.inr (Or.inr (Or.inr ⟨rfl, rfl, rfl, Or.inl rfl⟩)))))
  | shutdown =>
    obtain ⟨h1, h2, h3, h4, _, _⟩ := shutdown_some s t h
    exact Or.inr (Or.inr (Or.inr (Or.inr (Or.inr (Or.inr ⟨h1, h2, h3, Or.inr h4⟩)))))
  | reset => exact Or.inr (Or.inr (Or.inr (Or.inr (Or.inr (Or.inl ⟨rfl, h⟩)))))
  | add_parameter param => exact Or.inr (Or.inl ⟨param, rfl, (Option.some.inj h).symm⟩)
  | set_parameter param_id value =>
    exact Or.inr (Or.inr (Or.inl ⟨param_id, value, rfl, (Option.some.inj h).symm⟩))
  | analyze_buffer call =>
    simp only [step, Option.map_eq_some', Prod.exists, exists_eq_right] at h
    obtain ⟨res, hres⟩ := h
    obtain ⟨current, ht⟩ := analyze_buffer_some s call res t hres
    subst ht
    exact Or.inr (Or.inr (Or.inr (Or.inr (Or.inr (Or.inr ⟨rfl, rfl, rfl, Or.inl rfl⟩)))))
  | save_preset slot name =>
    exact Or.inr (Or.inr (Or.inr (Or.inl ⟨slot, name, rfl, (Option.some.inj h).symm⟩)))
  | load_preset slot =>
    exact Or.inr (Or.inr (Or.inr (Or.inr (Or.inl ⟨slot, rfl, (Option.some.inj h).symm⟩))))
  | set_analysis_enabled enabled =>
    have ht : t = set_analysis_enabled s enabled := (Option.some.inj h).symm
    subst ht
    exact Or.inr (Or.inr (Or.inr (Or.inr (Or.inr (Or.inr ⟨rfl, rfl, rfl, Or.inl rfl⟩)))))
  | analysis_worker_iteration =>
    have ht : t = s := by
      simp only [step] at h
      split at h
      · exact analysis_worker_iteration_some s t h
      · exact (Option.some.inj h).symm
    subst ht
    exact Or.inr (Or.inr (Or.inr (Or.inr (Or.inr (Or.inr ⟨rfl, rfl, rfl, Or.inl rfl⟩)))))

/-- Every call but `add_parameter` leaves the ids of the registered parameters and the
index map as they are. -/
theorem step_registry (s t : State) (op : Op) (h : step s op = some t)
    (hop : ∀ param, op ≠ Op.add_parameter param) :
    param_ids t = param_ids s ∧ t.param_id_to_index = s.param_id_to_index := by
  rcases step_some_cases s t op h with ⟨sr, bs, py, _, rfl⟩ | ⟨param, hp, _⟩ |
    ⟨param_id, value, _, rfl⟩ | ⟨slot, name, _, rfl⟩ | ⟨slot, _, rfl⟩ | ⟨_, hr⟩ |
    ⟨h1, h2, _, _⟩
  · have hreg := initialize_plugin_registry s sr bs py
    simp only [param_ids, hreg.1, hreg.2, and_self]
  · exact absurd hp (hop param)
  · obtain ⟨ps, h1, h2⟩ := set_parameter_frame s param_id value
    simp only [param_ids, h1]
    exact ⟨shape_ids _ _ h2, trivial⟩
  · have hreg := save_preset_registry s slot name
    simp only [param_ids, hreg.1, hreg.2.1, and_self]
  · obtain ⟨ps, h1, h2⟩ := load_preset_frame s slot
    simp only [param_ids, h1]
    exact ⟨shape_ids _ _ h2, trivial⟩
  · refine ⟨shape_ids _ _ (reset_shape s t hr), ?_⟩
    rw [(reset_some s t hr).2]
  · simp only [param_ids, h1, h2, and_self]

/-! ## The registry invariant -/

theorem registryOk_new : RegistryOk State.new := by
  constructor
  · intro id index h
    simp [State.new, StdMap.find] at h
  · intro id h
    simp [param_ids, State.new] at h

theorem registryOk_add_parameter (s : State) (param : PluginParameter) (hs : RegistryOk s) :
    RegistryOk (add_parameter s param) := by
  obtain ⟨h1, h2⟩ := hs
  have hids : param_ids (add_parameter s param) = param_ids s ++ [param.id] := by
    simp [param_ids, add_parameter]
  have hlen : (param_ids s).length = s.parameters.length := by simp [param_ids]
  have hmap : (add_parameter s param).param_id_to_index =
      s.param_id_to_index.assign param.id (param_ids s).length := by
    simp [add_parameter, hlen]
  constructor
  · intro id index hfind
    rw [hmap, StdMap.find_assign] at hfind
    rw [hids]
    by_cases hid : id = param.id
    · simp only [hid, if_true, Option.some.injEq] at hfind
      subst hfind
      refine ⟨by simp [hid], ?_⟩
      intro j hj
      rw [List.getElem?_eq_none (by simp; omega)]
      simp
    · simp only [hid, if_false] at hfind
      obtain ⟨ha, hb⟩ := h1 id index hfind
      have hlt : index < (param_ids s).length := by
        by_contra h
        rw [List.getElem?_eq_none (not_lt.mp h)] at ha
        cases ha
      refine ⟨by rw [List.getElem?_append_left hlt]; exact ha, ?_⟩
      intro j hj
      by_cases hjl : j < (param_ids s).length
      · rw [List.getElem?_append_left hjl]; exact hb j hj
      · by_cases hje : j = (param_ids s).length
        · subst hje
          simp only [List.getElem?_concat_length, ne_eq, Option.some.injEq]
          exact fun h => hid h.symm
        · rw [List.getElem?_eq_none (by simp; omega)]
          simp
  · intro id hmem
    rw [hids] at hmem
    rw [hmap, StdMap.find_assign]
    by_cases hid : id = param.id
    · simp [hid]
    · simp only [hid, if_false]
      apply h2
      simpa [hid] using hmem

theorem registryOk_step (s t : State) (op : Op) (h : step s op = some t)
    (hs : RegistryOk s) : RegistryOk t := by
  by_cases hop : ∃ param, op = Op.add_parameter param
  · obtain ⟨param, rfl⟩ := hop
    have ht : t = add_parameter s param := (Option.some.inj h).symm
    rw [ht]
    exact registryOk_add_parameter s param hs
  · have hreg := step_registry s t op h (fun param hp => hop ⟨param, hp⟩)
    unfold RegistryOk
    rw [hreg.1, hreg.2]
    exact hs

/-- The first call of a run that returns normally returns normally, and the rest of the
run starts from its state. -/
theorem run_cons_some (s t : State) (op : Op) (ops : List Op)
    (h : run s (op :: ops) = some t) : ∃ u, step s op = some u ∧ run u ops = some t := by
  simp only [run] at h
  cases hstep : step s op with
  | none => simp [hstep] at h
  | some u =>
    simp only [hstep] at h
    exact ⟨u, rfl, h⟩

theorem registryOk_run (ops : List Op) (s t : State) (h : run s ops = some t)
    (hs : RegistryOk s) : RegistryOk t := by
  induction ops generalizing s with
  | nil =>
    have ht : t = s := (Option.some.inj h).symm
    rw [ht]; exact hs
  | cons op rest ih =>
    obtain ⟨u, hstep, hrun⟩ := run_cons_some s t op rest h
    exact ih u hrun (registryOk_step s u op hstep hs)

/-- In a reachable state the index map is consistent with the parameter vector. -/
theorem reachable_registryOk (s : State) (hs : Reachable s) : RegistryOk s := by
  obtain ⟨ops, hrun⟩ := hs
  exact registryOk_run ops State.new s hrun registryOk_new

/-- In a reachable state every mapped id has its parameter: the vector access of
`set_parameter` and `get_parameter` is within bounds. -/
theorem reachable_index_valid (s : State) (hs : Reachable s) (param_id : Int) (index : Nat)
    (hfind : s.param_id_to_index.find param_id = some index) :
    ∃ param, s.parameters[index]? = some param ∧ param.id = param_id := by
  have h := (reachable_registryOk s hs).1 param_id index hfind
  have h1 := h.1
  simp only [param_ids, List.getElem?_map] at h1
  cases hp : s.parameters[index]? with
  | none => simp [hp] at h1
  | some param =>
    simp only [hp, Option.map_some', Option.some.injEq] at h1
    exact ⟨param, rfl, h1⟩

/-! ## The range invariant `min_value <= current_value <= max_value` -/

theorem rangeOk_set_parameter (s : State) (param_id : Int) (value : F32) (hs : RangeOk s) :
    RangeOk (set_parameter s param_id value).2 := by
  cases hfind : s.param_id_to_index.find param_id with
  | none => simpa [set_parameter, hfind] using hs
  | some index =>
    cases hparam : s.parameters[index]? with
    | none => simpa [set_parameter, hfind, hparam] using hs
    | some param =>
      rw [set_parameter_registered s param_id value index param hfind hparam]
      intro q hq
      rcases List.mem_or_eq_of_mem_set hq with hq | hq
      · exact hs q hq
      · have hmem : param ∈ s.parameters := List.getElem?_mem hparam
        obtain ⟨hr, hd⟩ := hs param hmem
        subst hq
        refine ⟨?_, hd⟩
        exact std_clamp_in_range value _ _ (F32_le_trans hr.1 hr.2)

theorem rangeOk_load_values (values : StdMap F32) (s : State) (hs : RangeOk s) :
    RangeOk (load_values s values) := by
  induction values generalizing s with
  | nil => exact hs
  | cons e rest ih =>
    obtain ⟨param_id, value⟩ := e
    exact ih _ (rangeOk_set_parameter s param_id value hs)

theorem rangeOk_load_preset (s : State) (slot : Int) (hs : RangeOk s) :
    RangeOk (load_preset s slot).2 := by
  unfold load_preset
  split
  · exact hs
  · split
    · exact hs
    · split
      · exact hs
      · exact rangeOk_load_values _ s hs

theorem rangeOk_reset (s t : State) (h : reset s = some t) (hs : RangeOk s) :
    RangeOk t := by
  intro q hq
  rw [(reset_some s t h).2] at hq
  simp only [List.mem_map] at hq
  obtain ⟨param, hmem, rfl⟩ := hq
  obtain ⟨_, hd⟩ := hs param hmem
  exact ⟨hd, hd⟩

theorem rangeOk_add_parameter (s : State) (param : PluginParameter) (hs : RangeOk s)
    (hp : InRange param ∧ DefaultInRange param) : RangeOk (add_parameter s param) := by
  intro q hq
  simp only [add_parameter, List.mem_append, List.mem_singleton] at hq
  rcases hq with hq | hq
  · exact hs q hq
  · rw [hq]; exact hp

theorem rangeOk_step (s t : State) (op : Op) (h : step s op = some t) (hs : RangeOk s)
    (hop : ∀ param, op = Op.add_parameter param → InRange param ∧ DefaultInRange param) :
    RangeOk t := by
  rcases step_some_cases s t op h with ⟨sr, bs, py, _, rfl⟩ | ⟨param, hp, rfl⟩ |
    ⟨param_id, value, _, rfl⟩ | ⟨slot, name, _, rfl⟩ | ⟨slot, _, rfl⟩ | ⟨_, hr⟩ |
    ⟨h1, _, _, _⟩
  · unfold RangeOk
    rw [(initialize_plugin_registry s sr bs py).1]
    exact hs
  · exact rangeOk_add_parameter s param hs (hop param hp)
  · exact rangeOk_set_parameter s param_id value hs
  · unfold RangeOk
    rw [(save_preset_registry s slot name).1]
    exact hs
  · exact rangeOk_load_preset s slot hs
  · exact rangeOk_reset s t hr hs
  · unfold RangeOk
    rw [h1]
    exact hs

theorem rangeOk_run (ops : List Op) (s t : State) (h : run s ops = some t) (hs : RangeOk s)
    (hops : ∀ param, Op.add_parameter param ∈ ops → InRange param ∧ DefaultInRange param) :
    RangeOk t := by
  induction ops generalizing s with
  | nil =>
    have ht : t = s := (Option.some.inj h).symm
    rw [ht]; exact hs
  | cons op rest ih =>
    obtain ⟨u, hstep, hrun⟩ := run_cons_some s t op rest h
    apply ih u hrun
    · apply rangeOk_step s u op hstep hs
      intro param hp
      exact hops param (by rw [hp]; exact List.mem_cons_self _ _)
    · intro param hp
      exact hops param (List.mem_cons_of_mem _ hp)

theorem save_preset_queue (s : State) (slot : Int) (name : String) :
    (save_preset s slot name).2.analysis_queue = s.analysis_queue := by
  unfold save_preset
  split
  · rfl
  · split <;> rfl

/-- A call of the registry or the preset bank on a plugin with nothing queued returns
normally and queues nothing. -/
theorem step_registry_call (s : State) (op : Op) (hop : op.isRegistryCall = true)
    (hqueue : s.analysis_queue = []) :
    ∃ t, step s op = some t ∧ t.analysis_queue = [] := by
  cases op with
  | add_parameter param => exact ⟨_, rfl, hqueue⟩
  | set_parameter param_id value =>
    obtain ⟨ps, h1, _⟩ := set_parameter_frame s param_id value
    exact ⟨_, rfl, by rw [h1]; exact hqueue⟩
  | reset => exact ⟨_, reset_empty_queue s hqueue, hqueue⟩
  | save_preset slot name => exact ⟨_, rfl, by rw [save_preset_queue]; exact hqueue⟩
  | load_preset slot =>
    obtain ⟨ps, h1, _⟩ := load_preset_frame s slot
    exact ⟨_, rfl, by rw [h1]; exact hqueue⟩
  | initialize_plugin sr bs py => cases hop
  | process l r n => cases hop
  | shutdown => cases hop
  | analyze_buffer call => cases hop
  | set_analysis_enabled enabled => cases hop
  | analysis_worker_iteration => cases hop

theorem run_registry_calls (ops : List Op) (hops : ∀ op ∈ ops, op.isRegistryCall = true)
    (s : State) (hqueue : s.analysis_queue = []) : ∃ t, run s ops = some t := by
  induction ops generalizing s with
  | nil => exact ⟨s, rfl⟩
  | cons op rest ih =>
    obtain ⟨u, hu, hq⟩ := step_registry_call s op (hops op (List.mem_cons_self _ _)) hqueue
    obtain ⟨t, ht⟩ := ih (fun o ho => hops o (List.mem_cons_of_mem _ ho)) u hq
    refine ⟨t, ?_⟩
    simp only [run, hu]
    exact ht

/-- C3 (as amended): in every state reached from a freshly constructed plugin by any
sequence of calls in which each parameter handed to `add_parameter` has its default and
its current value within `[min_value, max_value]`, every registered parameter satisfies
`min_value <= current_value <= max_value`.  A sequence of `add_parameter`,
`set_parameter`, `reset`, `save_preset` and `load_preset` calls always reaches a state:
each of its calls returns normally. -/
theorem C3_range_invariant (ops : List Op)
    (hops : ∀ param, Op.add_parameter param ∈ ops → InRange param ∧ DefaultInRange param) :
    (∀ s, run State.new ops = some s → ∀ param ∈ s.parameters, InRange param) ∧
    ((∀ op ∈ ops, op.isRegistryCall = true) → ∃ s, run State.new ops = some s) := by
  constructor
  · intro s hrun param hmem
    have h : RangeOk State.new := by
      intro q hq
      simp [State.new] at hq
    exact (rangeOk_run ops State.new s hrun h hops param hmem).1
  · intro hcalls
    exact run_registry_calls ops hcalls State.new rfl

/-- C3, the claim as stated fails: `add_parameter` stores the parameter as constructed, so
registering a parameter with range `[0, 1]` and default `5` leaves `current_value = 5`
above `max_value = 1`. -/
theorem C3_unclamped_default_counterexample :
    (run State.new [Op.add_parameter
      (PluginParameter.new 1 "gain" (F32.num 0) (F32.num 1) (F32.num 5) "%.2f")]).map
        (fun t => t.parameters) =
      some [PluginParameter.new 1 "gain" (F32.num 0) (F32.num 1) (F32.num 5) "%.2f"] ∧
    (PluginParameter.new 1 "gain" (F32.num 0) (F32.num 1) (F32.num 5) "%.2f").current_value =
      F32.num 5 ∧
    ¬ InRange (PluginParameter.new 1 "gain" (F32.num 0) (F32.num 1) (F32.num 5) "%.2f") := by
  decide

set_option maxRecDepth 8192 in
/-- C3, a concrete run: a parameter with range `[0, 1]` and default `0` is written out of
range, saved to a preset, reset and loaded back; it ends with current value `1`, within
its range; and a run of registry calls alone returns. -/
theorem C3_range_invariant_witness :
    (∃ t, run State.new
        [Op.add_parameter (PluginParameter.new 1 "gain" (F32.num 0) (F32.num 1) (F32.num 0) "f"),
         Op.initialize_plugin 44100 512 PyInit.ok,
         Op.set_parameter 1 (F32.num 5),
         Op.save_preset 0 "a",
         Op.reset,
         Op.load_preset 0] = some t ∧
      PluginParameter.store
        (PluginParameter.new 1 "gain" (F32.num 0) (F32.num 1) (F32.num 0) "f") (F32.num 5) ∈
        t.parameters) ∧
    InRange (PluginParameter.store
      (PluginParameter.new 1 "gain" (F32.num 0) (F32.num 1) (F32.num 0) "f") (F32.num 5)) ∧
    (∃ t, run State.new
        [Op.add_parameter (PluginParameter.new 1 "gain" (F32.num 0) (F32.num 1) (F32.num 0) "f"),
         Op.set_parameter 1 (F32.num 5),
         Op.reset] = some t) :=
  ⟨⟨_, rfl, by decide⟩,
   (C3_range_invariant
    [Op.add_parameter (PluginParameter.new 1 "gain" (F32.num 0) (F32.num 1) (F32.num 0) "f"),
     Op.initialize_plugin 44100 512 PyInit.ok,
     Op.set_parameter 1 (F32.num 5),
     Op.save_preset 0 "a",
     Op.reset,
     Op.load_preset 0]
    (by
      intro param h
      simp only [List.mem_cons, Op.add_parameter.injEq, List.mem_singleton, reduceCtorEq,
        or_false, List.not_mem_nil] at h
      subst h
      decide)).1 _ rfl _ (by decide),
   (C3_range_invariant
    [Op.add_parameter (PluginParameter.new 1 "gain" (F32.num 0) (F32.num 1) (F32.num 0) "f"),
     Op.set_parameter 1 (F32.num 5),
     Op.reset]
    (by
      intro param h
      simp only [List.mem_cons, Op.add_parameter.injEq, List.mem_singleton, reduceCtorEq,
        or_false, List.not_mem_nil] at h
      subst h
      decide)).2
    (by
      intro op hop
      simp only [List.mem_cons, List.mem_singleton, List.not_mem_nil, or_false] at hop
      rcases hop with h | h | h <;> rw [h] <;> rfl)⟩

/-! ## The preset bank invariant -/

theorem save_values_ordered (params : List PluginParameter) (values : StdMap F32)
    (h : StdMap.Ordered values) : StdMap.Ordered (save_values values params) := by
  induction params generalizing values with
  | nil => exact h
  | cons param rest ih => exact ih _ (StdMap.ordered_assign values _ _ h)

theorem presetsOk_new : PresetsOk State.new := by
  refine ⟨Or.inl rfl, ?_, ?_⟩
  · intro h; simp [State.new] at h
  · intro preset h; simp [State.new] at h

theorem presetsOk_of_eq (s t : State) (hs : PresetsOk s)
    (h1 : t.preset_slots = s.preset_slots) (h2 : t.is_initialized = s.is_initialized) :
    PresetsOk t := by
  unfold PresetsOk
  rw [h1, h2]
  exact hs

theorem resize_slots_length (slots : List Preset) : (resize_slots slots 128).length = 128 := by
  simp only [resize_slots, List.length_append, List.length_take, List.length_replicate]
  omega

theorem presetsOk_initialize_plugin (s : State) (sr bs : Int) (py : PyInit)
    (hs : PresetsOk s) : PresetsOk (initialize_plugin s sr bs py) := by
  by_cases h : s.is_initialized = true
  · rw [initialize_plugin, if_pos h]; exact hs
  · rw [initialize_plugin, if_neg h]
    obtain ⟨hlen, hinit, hord⟩ := hs
    have hfail : ∀ t : State, t.preset_slots = s.preset_slots →
        t.is_initialized = s.is_initialized → PresetsOk t := by
      intro t h1 h2
      exact presetsOk_of_eq s t ⟨hlen, hinit, hord⟩ h1 h2
    cases py with
    | no_interpreter => exact hfail _ rfl rfl
    | import_fails => exact hfail _ rfl rfl
    | no_engine_class => exact hfail _ rfl rfl
    | instantiate_fails => exact hfail _ rfl rfl
    | no_analyze_method found => exact hfail _ rfl rfl
    | ok =>
      simp only [initialize_python]
      refine ⟨Or.inr (resize_slots_length _), fun _ => resize_slots_length _, ?_⟩
      intro preset hmem
      simp only [resize_slots, List.mem_append] at hmem
      rcases hmem with hmem | hmem
      · exact hord preset (List.mem_of_mem_take hmem)
      · rw [List.eq_of_mem_replicate hmem]
        simp [Preset.new, StdMap.Ordered, StdMap.keys]

theorem presetsOk_save_preset (s : State) (slot : Int) (name : String) (hs : PresetsOk s) :
    PresetsOk (save_preset s slot name).2 := by
  unfold save_preset
  split
  · exact hs
  · split
    · exact hs
    · rename_i preset hp
      obtain ⟨hlen, hinit, hord⟩ := hs
      refine ⟨by simpa using hlen, by simpa using hinit, ?_⟩
      intro q hq
      rcases List.mem_or_eq_of_mem_set hq with hq | hq
      · exact hord q hq
      · rw [hq]
        exact save_values_ordered _ _ (hord preset (List.getElem?_mem hp))

theorem presetsOk_step (s t : State) (op : Op) (h : step s op = some t)
    (hs : PresetsOk s) : PresetsOk t := by
  rcases step_some_cases s t op h with ⟨sr, bs, py, _, rfl⟩ | ⟨param, _, rfl⟩ |
    ⟨param_id, value, _, rfl⟩ | ⟨slot, name, _, rfl⟩ | ⟨slot, _, rfl⟩ | ⟨_, hr⟩ |
    ⟨_, _, h3, h4⟩
  · exact presetsOk_initialize_plugin s sr bs py hs
  · exact presetsOk_of_eq s _ hs rfl rfl
  · obtain ⟨ps, h1, _⟩ := set_parameter_frame s param_id value
    exact presetsOk_of_eq s _ hs (by rw [h1]) (by rw [h1])
  · exact presetsOk_save_preset s slot name hs
  · obtain ⟨ps, h1, _⟩ := load_preset_frame s slot
    exact presetsOk_of_eq s _ hs (by rw [h1]) (by rw [h1])
  · exact presetsOk_of_eq s _ hs (by rw [(reset_some s t hr).2]) (by rw [(reset_some s t hr).2])
  · obtain ⟨hlen, hinit, hord⟩ := hs
    refine ⟨by rw [h3]; exact hlen, ?_, by rw [h3]; exact hord⟩
    intro hi
    rw [h3]
    rcases h4 with h4 | h4
    · exact hinit (h4 ▸ hi)
    · rw [h4] at hi; cases hi

theorem presetsOk_run (ops : List Op) (s t : State) (h : run s ops = some t)
    (hs : PresetsOk s) : PresetsOk t := by
  induction ops generalizing s with
  | nil =>
    have ht : t = s := (Option.some.inj h).symm
    rw [ht]; exact hs
  | cons op rest ih =>
    obtain ⟨u, hstep, hrun⟩ := run_cons_some s t op rest h
    exact ih u hrun (presetsOk_step s u op hstep hs)

/-- In a reachable state the preset bank is empty or has 128 slots, it has 128 slots
once `initialize` has succeeded, and every slot holds a well-formed map. -/
theorem reachable_presetsOk (s : State) (hs : Reachable s) : PresetsOk s := by
  obtain ⟨ops, hrun⟩ := hs
  exact presetsOk_run ops State.new s hrun presetsOk_new

/-! ## Saving and loading a preset -/

theorem getElem?_lt_length {α : Type} {l : List α} {i : Nat} {a : α} (h : l[i]? = some a) :
    i < l.length := by
  by_contra hlt
  rw [List.getElem?_eq_none (not_lt.mp hlt)] at h
  cases h

theorem set_parameter_getElem? (s : State) (k : Int) (v : F32) (i : Nat)
    (param : PluginParameter) (hp : s.parameters[i]? = some param) :
    (set_parameter s k v).2.parameters[i]? =
      some (if s.param_id_to_index.find k = some i then param.store v else param) := by
  cases hfind : s.param_id_to_index.find k with
  | none => simp [set_parameter, hfind, hp]
  | some index =>
    cases hparam : s.parameters[index]? with
    | none =>
      have hne : index ≠ i := by
        intro h; rw [h, hp] at hparam; cases hparam
      simp [set_parameter, hfind, hparam, hp, hne]
    | some q =>
      rw [set_parameter_registered s k v index q hfind hparam]
      by_cases hi : index = i
      · subst hi
        have hq : q = param := by rw [hp] at hparam; exact (Option.some.inj hparam).symm
        subst hq
        simp [List.getElem?_set_self (getElem?_lt_length hp), PluginParameter.store]
      · simp [List.getElem?_set_ne hi, hp, hi]

theorem registryOk_getElem? (s : State) (hs : RegistryOk s) (k : Int) (i : Nat)
    (param : PluginParameter) (hfind : s.param_id_to_index.find k = some i)
    (hp : s.parameters[i]? = some param) : param.id = k := by
  have h := (hs.1 k i hfind).1
  simp only [param_ids, List.getElem?_map, hp, Option.map_some', Option.some.injEq] at h
  exact h

theorem StdMap.find_eq_none_of_lt {V : Type} (m : StdMap V) (k : Int)
    (h : ∀ a ∈ StdMap.keys m, k < a) : m.find k = none := by
  induction m with
  | nil => rfl
  | cons e rest ih =>
    obtain ⟨k0, v0⟩ := e
    simp only [StdMap.keys, List.map_cons, List.mem_cons, forall_eq_or_imp] at h
    simp only [StdMap.find, ne_of_lt h.1, if_false]
    exact ih h.2

theorem load_values_getElem? (values : StdMap F32) (hord : StdMap.Ordered values) (s : State)
    (hs : RegistryOk s) (i : Nat) (param : PluginParameter)
    (hp : s.parameters[i]? = some param) :
    (load_values s values).parameters[i]? =
      some (match values.find param.id with
        | some v => if s.param_id_to_index.find param.id = some i then param.store v else param
        | none => param) := by
  induction values generalizing s param with
  | nil => simpa [load_values, StdMap.find] using hp
  | cons e rest ih =>
    obtain ⟨k, v⟩ := e
    simp only [StdMap.Ordered, StdMap.keys, List.map_cons, List.pairwise_cons] at hord
    obtain ⟨hhead, htail⟩ := hord
    have hs1 : RegistryOk (set_parameter s k v).2 :=
      registryOk_step s _ (Op.set_parameter k v) rfl hs
    obtain ⟨ps1, hframe, _⟩ := set_parameter_frame s k v
    have hmap : (set_parameter s k v).2.param_id_to_index = s.param_id_to_index := by
      rw [hframe]
    have h1 := set_parameter_getElem? s k v i param hp
    simp only [load_values, StdMap.find]
    by_cases hk : param.id = k
    · subst hk
      have hnone : StdMap.find rest param.id = none :=
        StdMap.find_eq_none_of_lt rest param.id hhead
      by_cases hfind : s.param_id_to_index.find param.id = some i
      · simp only [hfind, if_true] at h1
        have h2 := ih htail _ hs1 (param.store v) h1
        have hid : (param.store v).id = param.id := rfl
        rw [hid, hnone] at h2
        simp only [h2, hfind, if_true]
      · simp only [hfind, if_false] at h1
        have h2 := ih htail _ hs1 param h1
        rw [hnone] at h2
        simp only [h2, hfind, if_false, if_true]
    · have hnot : ¬ s.param_id_to_index.find k = some i := by
        intro hfind
        exact hk (registryOk_getElem? s hs k i param hfind hp)
      simp only [hnot, if_false] at h1
      have h2 := ih htail _ hs1 param h1
      rw [hmap] at h2
      simp only [h2, hk, if_false]

theorem save_values_find_of_not_mem (params : List PluginParameter) (values : StdMap F32)
    (k : Int) (h : ∀ q ∈ params, q.id ≠ k) :
    (save_values values params).find k = values.find k := by
  induction params generalizing values with
  | nil => rfl
  | cons p0 rest ih =>
    simp only [List.mem_cons, forall_eq_or_imp] at h
    simp only [save_values]
    rw [ih _ h.2, StdMap.find_assign_ne _ _ _ _ (fun hk => h.1 hk.symm)]

theorem save_values_find_last (params : List PluginParameter) (values : StdMap F32) (j : Nat)
    (q : PluginParameter) (hq : params[j]? = some q)
    (hlast : ∀ j' q', j < j' → params[j']? = some q' → q'.id ≠ q.id) :
    (save_values values params).find q.id = some q.current_value := by
  induction params generalizing values j with
  | nil => simp at hq
  | cons p0 rest ih =>
    simp only [save_values]
    cases j with
    | zero =>
      simp only [List.getElem?_cons_zero, Option.some.injEq] at hq
      subst hq
      rw [save_values_find_of_not_mem, StdMap.find_assign_self]
      intro q' hq'
      obtain ⟨n, hn⟩ := List.mem_iff_getElem?.mp hq'
      exact hlast (n + 1) q' (Nat.succ_pos n) (by simpa using hn)
    | succ j =>
      simp only [List.getElem?_cons_succ] at hq
      apply ih _ j hq
      intro j' q' hj' hq'
      exact hlast (j' + 1) q' (Nat.succ_lt_succ hj') (by simpa using hq')

theorem run_set_parameters (ops : List Op)
    (hops : ∀ op ∈ ops, ∃ k v, op = Op.set_parameter k v) (t : State) (ht : RegistryOk t) :
    ∃ ps : List PluginParameter,
      run t ops = some { t with parameters := ps } ∧
      ps.map PluginParameter.shape = t.parameters.map PluginParameter.shape ∧
      ∀ i param, t.parameters[i]? = some param →
        ¬ t.param_id_to_index.find param.id = some i → ps[i]? = some param := by
  induction ops generalizing t with
  | nil => exact ⟨t.parameters, rfl, rfl, fun i param h _ => h⟩
  | cons op rest ih =>
    obtain ⟨k, v, rfl⟩ := hops _ (List.mem_cons_self _ _)
    have ht1 : RegistryOk (set_parameter t k v).2 :=
      registryOk_step t _ (Op.set_parameter k v) rfl ht
    obtain ⟨ps1, hframe, hshape1⟩ := set_parameter_frame t k v
    obtain ⟨ps, hrun, hshape, hsame⟩ :=
      ih (fun op hop => hops op (List.mem_cons_of_mem _ hop)) (set_parameter t k v).2 ht1
    refine ⟨ps, ?_, ?_, ?_⟩
    · have hstep : run t (Op.set_parameter k v :: rest) = run (set_parameter t k v).2 rest := rfl
      rw [hstep, hrun, hframe]
    · rw [hshape, hframe]; exact hshape1
    · intro i param hp hnot
      have h1 := set_parameter_getElem? t k v i param hp
      have hk : ¬ t.param_id_to_index.find k = some i := by
        intro hfind
        have hid := registryOk_getElem? t ht k i param hfind hp
        rw [hid] at hnot
        exact hnot hfind
      simp only [hk, if_false] at h1
      apply hsame i param h1
      rw [hframe]
      exact hnot

theorem std_clamp_of_in_range (v lo hi : F32) (h1 : F32.le lo v = true)
    (h2 : F32.le v hi = true) : std_max lo (std_min v hi) = v := by
  cases v with
  | nan => cases lo <;> simp [F32.le] at h1
  | num x =>
    cases lo with
    | nan => simp [F32.le] at h1
    | num a =>
      cases hi with
      | nan => simp [F32.le] at h2
      | num b =>
        simp only [F32.le, decide_eq_true_eq] at h1 h2
        have hb : ¬ b < x := not_lt.mpr h2
        simp only [std_max, std_min, F32.lt, decide_eq_true_eq, hb, if_false]
        rcases lt_or_eq_of_le h1 with h | h
        · simp [h]
        · simp [h]

theorem store_eq_of_shape (p p2 : PluginParameter)
    (hshape : p2.shape = p.shape) (hr : InRange p) :
    p2.store p.current_value = p := by
  obtain ⟨id, name, lo, hi, d, c, a, f⟩ := p
  obtain ⟨id2, name2, lo2, hi2, d2, c2, a2, f2⟩ := p2
  simp only [PluginParameter.shape, PluginParameter.mk.injEq] at hshape
  obtain ⟨h1, h2, h3, h4, h5, _, h7, h8⟩ := hshape
  subst h1 h2 h3 h4 h5 h7 h8
  simp only [PluginParameter.store, PluginParameter.mk.injEq, true_and, and_true]
  exact std_clamp_of_in_range _ _ _ hr.1 hr.2

theorem shape_getElem? (ps qs : List PluginParameter)
    (h : ps.map PluginParameter.shape = qs.map PluginParameter.shape) (i : Nat)
    (q : PluginParameter) (hq : qs[i]? = some q) :
    ∃ p, ps[i]? = some p ∧ p.shape = q.shape := by
  have h1 := congrArg (fun l => l[i]?) h
  simp only [List.getElem?_map, hq, Option.map_some'] at h1
  cases hp : ps[i]? with
  | none => simp [hp] at h1
  | some p =>
    simp only [hp, Option.map_some', Option.some.injEq] at h1
    exact ⟨p, rfl, h1⟩

theorem load_values_restores (s s2 : State) (hs : RegistryOk s)
    (hrange : ∀ param ∈ s.parameters, InRange param)
    (hmap : s2.param_id_to_index = s.param_id_to_index)
    (hshape : s2.parameters.map PluginParameter.shape =
      s.parameters.map PluginParameter.shape)
    (hsame : ∀ i param, s.parameters[i]? = some param →
      ¬ s.param_id_to_index.find param.id = some i → s2.parameters[i]? = some param)
    (values : StdMap F32) (hord : StdMap.Ordered values) :
    (load_values s2 (save_values values s.parameters)).parameters = s.parameters := by
  have hs2 : RegistryOk s2 := by
    unfold RegistryOk param_ids
    rw [hmap, shape_ids _ _ hshape]
    exact hs
  have hord' := save_values_ordered s.parameters values hord
  obtain ⟨ps, hframe, hshape'⟩ := load_values_frame (save_values values s.parameters) s2
  apply List.ext_getElem?
  intro i
  cases hp : s.parameters[i]? with
  | none =>
    have hlen : (load_values s2 (save_values values s.parameters)).parameters.length =
        s.parameters.length := by
      have h := congrArg List.length (hshape'.trans hshape)
      simp only [List.length_map] at h
      rw [hframe]; exact h
    have hi : s.parameters.length ≤ i := by
      by_contra hlt
      rw [List.getElem?_eq_getElem (not_le.mp hlt)] at hp
      cases hp
    exact List.getElem?_eq_none (by rw [hlen]; exact hi)
  | some param =>
    obtain ⟨p2, hp2, hsh⟩ := shape_getElem? _ _ hshape i param hp
    have hid : p2.id = param.id :=
      show (p2.shape).id = (param.shape).id from congrArg PluginParameter.id hsh
    rw [load_values_getElem? _ hord' s2 hs2 i p2 hp2, hid, hmap]
    have hsome := hs.2 param.id (by
      simp only [param_ids, List.mem_map]
      exact ⟨param, List.getElem?_mem hp, rfl⟩)
    obtain ⟨j, hj⟩ := Option.isSome_iff_exists.mp hsome
    obtain ⟨hidx, hlast⟩ := hs.1 param.id j hj
    simp only [param_ids, List.getElem?_map] at hidx hlast
    cases hq : s.parameters[j]? with
    | none => simp [hq] at hidx
    | some q =>
      simp only [hq, Option.map_some', Option.some.injEq] at hidx
      have hfind : (save_values values s.parameters).find param.id =
          some q.current_value := by
        rw [← hidx]
        apply save_values_find_last s.parameters values j q hq
        intro j' q' hj' hq'
        have h := hlast j' hj'
        simp only [hq', Option.map_some', ne_eq, Option.some.injEq] at h
        rw [hidx]; exact h
      rw [hfind]
      by_cases hji : j = i
      · subst hji
        have hqp : q = param := by rw [hp] at hq; exact (Option.some.inj hq).symm
        subst hqp
        simp only [hj, if_true]
        rw [store_eq_of_shape q p2 hsh (hrange q (List.getElem?_mem hp))]
      · have hnot : ¬ s.param_id_to_index.find param.id = some i := by
          rw [hj]; intro h; exact hji (Option.some.inj h)
        have h2 := hsame i param hp hnot
        rw [hp2] at h2
        simp only [hnot, if_false]
        exact h2

theorem save_preset_valid (s : State) (slot : Int) (name : String) (preset : Preset)
    (h0 : 0 ≤ slot) (hlt : slot < (s.preset_slots.length : Int))
    (hp : s.preset_slots[slot.toNat]? = some preset) :
    save_preset s slot name =
      (true, { s with
        preset_slots := s.preset_slots.set slot.toNat (preset.saved name s.parameters) }) := by
  have hguard : ¬ (slot < 0 ∨ slot ≥ (s.preset_slots.length : Int)) := by omega
  simp only [save_preset, hguard, if_false, hp, Preset.saved]

theorem load_preset_valid (s : State) (slot : Int) (preset : Preset)
    (h0 : 0 ≤ slot) (hlt : slot < (s.preset_slots.length : Int))
    (hp : s.preset_slots[slot.toNat]? = some preset) (hname : preset.name ≠ "") :
    load_preset s slot = (true, load_values s preset.parameter_values) := by
  have hguard : ¬ (slot < 0 ∨ slot ≥ (s.preset_slots.length : Int)) := by omega
  simp only [load_preset, hguard, if_false, hp, hname]

/-- C2 (as amended): in a reachable, initialized state in which every registered
parameter has `min_value <= current_value <= max_value`, for every slot in `[0, 128)` and
every non-empty name, `save_preset(slot, name)` succeeds, and after any sequence of
`set_parameter` calls `load_preset(slot)` returns true and leaves the parameter vector
exactly as it was at the moment of the save. -/
theorem C2_save_load_round_trip (s : State) (hs : Reachable s)
    (hinit : s.is_initialized = true) (slot : Int) (h0 : 0 ≤ slot) (h128 : slot < 128)
    (name : String) (hname : name ≠ "")
    (hrange : ∀ param ∈ s.parameters, InRange param)
    (ops : List Op) (hops : ∀ op ∈ ops, ∃ k v, op = Op.set_parameter k v) :
    (save_preset s slot name).1 = true ∧
    ∃ t, run (save_preset s slot name).2 ops = some t ∧
      (load_preset t slot).1 = true ∧
      (load_preset t slot).2.parameters = s.parameters := by
  have hreg := reachable_registryOk s hs
  obtain ⟨_, hlen, hord⟩ := reachable_presetsOk s hs
  have hlen := hlen hinit
  have hnat : slot.toNat < s.preset_slots.length := by omega
  have hlt : slot < (s.preset_slots.length : Int) := by omega
  have hp : s.preset_slots[slot.toNat]? = some (s.preset_slots[slot.toNat]) :=
    List.getElem?_eq_getElem hnat
  have hsave := save_preset_valid s slot name _ h0 hlt hp
  have hs1par : (save_preset s slot name).2.parameters = s.parameters := by rw [hsave]
  have hs1map : (save_preset s slot name).2.param_id_to_index = s.param_id_to_index := by
    rw [hsave]
  have hs1slots : (save_preset s slot name).2.preset_slots =
      s.preset_slots.set slot.toNat ((s.preset_slots[slot.toNat]).saved name s.parameters) := by
    rw [hsave]
  have hreg1 : RegistryOk (save_preset s slot name).2 := by
    rw [hsave]; exact hreg
  obtain ⟨ps, hrun, hshape, hsame⟩ := run_set_parameters ops hops _ hreg1
  refine ⟨by rw [hsave], _, hrun, ?_⟩
  have hs2slots : ({ (save_preset s slot name).2 with parameters := ps } : State).preset_slots =
      s.preset_slots.set slot.toNat ((s.preset_slots[slot.toNat]).saved name s.parameters) :=
    hs1slots
  have hslots : ({ (save_preset s slot name).2 with parameters := ps } : State).preset_slots[slot.toNat]? =
      some ((s.preset_slots[slot.toNat]).saved name s.parameters) := by
    rw [hs2slots]; exact List.getElem?_set_self hnat
  have hlt2 : slot <
      (({ (save_preset s slot name).2 with parameters := ps } : State).preset_slots.length : Int) := by
    rw [hs2slots, List.length_set]; exact hlt
  have hload := load_preset_valid _ slot
    ((s.preset_slots[slot.toNat]).saved name s.parameters) h0 hlt2 hslots hname
  rw [hload]
  refine ⟨rfl, ?_⟩
  have hs2map : ({ (save_preset s slot name).2 with parameters := ps } : State).param_id_to_index =
      s.param_id_to_index := hs1map
  show (load_values _ (save_values (s.preset_slots[slot.toNat]).parameter_values
    s.parameters)).parameters = s.parameters
  apply load_values_restores s _ hreg hrange hs2map
  · rw [hshape, hs1par]
  · intro i param hpar hnot
    apply hsame i param
    · rw [hs1par]; exact hpar
    · rw [hs1map]; exact hnot
  · exact hord _ (List.getElem?_mem hp)

set_option maxRecDepth 8192 in
/-- C2, the claim as stated fails: with a parameter of range `[0, 1]` whose current value
is its unclamped default `5`, `save_preset(0, "x")` captures `5`; after
`set_parameter(1, 0)` the call `load_preset(0)` returns true but goes through the clamp
of `set_parameter` and leaves `1`, not the `5` of the moment of the save. -/
theorem C2_out_of_range_counterexample :
    state_default_out_of_range.is_initialized = true ∧
    get_parameter state_default_out_of_range 1 = F32.num 5 ∧
    (save_preset state_default_out_of_range 0 "x").1 = true ∧
    (run (save_preset state_default_out_of_range 0 "x").2
      [Op.set_parameter 1 (F32.num 0)]).map (fun t => (load_preset t 0).1) = some true ∧
    (run (save_preset state_default_out_of_range 0 "x").2
      [Op.set_parameter 1 (F32.num 0)]).map (fun t => get_parameter (load_preset t 0).2 1) =
      some (F32.num 1) := by
  decide

theorem state_two_parameters_reachable : Reachable state_two_parameters :=
  ⟨[Op.add_parameter (PluginParameter.new 1 "gain" (F32.num 0) (F32.num 1) (F32.num 1) "f"),
    Op.add_parameter (PluginParameter.new 2 "mix" (F32.num 0) (F32.num 10) (F32.num 3) "f"),
    Op.initialize_plugin 44100 512 PyInit.ok], rfl⟩

/-- C2, a concrete round trip: two parameters saved to slot 5, both overwritten, then
restored by `load_preset(5)`. -/
theorem C2_save_load_round_trip_witness :
    (save_preset state_two_parameters 5 "x").1 = true ∧
    ∃ t, run (save_preset state_two_parameters 5 "x").2
        [Op.set_parameter 1 (F32.num 0), Op.set_parameter 2 (F32.num 7)] = some t ∧
      (load_preset t 5).1 = true ∧
      (load_preset t 5).2.parameters = state_two_parameters.parameters :=
  C2_save_load_round_trip state_two_parameters state_two_parameters_reachable (by decide) 5
    (by decide) (by decide) "x" (by decide) (by decide) _ (by
      intro op hop
      simp only [List.mem_cons, List.mem_singleton, List.not_mem_nil, or_false] at hop
      rcases hop with hop | hop
      · exact ⟨_, _, hop⟩
      · exact ⟨_, _, hop⟩)

/-! ## Preset slots out of range, and empty slots -/

/-- C4: in every reachable state, for every slot with `slot < 0` or `slot >= 128` and every
name, `save_preset(slot, name)` and `load_preset(slot)` return false and leave the whole
state (all preset slots and all parameter values) unchanged. -/
theorem C4_slot_out_of_range (s : State) (hs : Reachable s) (slot : Int)
    (hslot : slot < 0 ∨ 128 ≤ slot) (name : String) :
    save_preset s slot name = (false, s) ∧ load_preset s slot = (false, s) := by
  obtain ⟨hlen, _, _⟩ := reachable_presetsOk s hs
  have hguard : slot < 0 ∨ slot ≥ (s.preset_slots.length : Int) := by omega
  simp only [save_preset, load_preset, hguard, if_true, and_self]

/-- C4, concrete instances: slots `128` and `-1` of an initialized plugin. -/
theorem C4_slot_out_of_range_witness :
    (save_preset state_two_parameters 128 "x" = (false, state_two_parameters) ∧
      load_preset state_two_parameters 128 = (false, state_two_parameters)) ∧
    (save_preset state_two_parameters (-1) "x" = (false, state_two_parameters) ∧
      load_preset state_two_parameters (-1) = (false, state_two_parameters)) :=
  ⟨C4_slot_out_of_range state_two_parameters state_two_parameters_reachable 128
     (by decide) "x",
   C4_slot_out_of_range state_two_parameters state_two_parameters_reachable (-1)
     (by decide) "x"⟩

theorem slotEmpty_of_eq (s t : State) (slot : Int) (hs : SlotEmpty s slot)
    (h : t.preset_slots = s.preset_slots) : SlotEmpty t slot := by
  unfold SlotEmpty
  rw [h]
  exact hs

theorem resize_slots_getElem? (slots : List Preset) (i : Nat) (preset : Preset)
    (h : (resize_slots slots 128)[i]? = some preset) :
    slots[i]? = some preset ∨ preset = Preset.new := by
  simp only [resize_slots] at h
  rcases List.mem_append.mp (List.getElem?_mem h) with hmem | hmem
  · by_cases hi : i < (List.take 128 slots).length
    · rw [List.getElem?_append_left hi, List.getElem?_take] at h
      split at h
      · exact Or.inl h
      · cases h
    · rw [List.getElem?_append_right (not_lt.mp hi)] at h
      exact Or.inr (List.eq_of_mem_replicate (List.getElem?_mem h))
  · exact Or.inr (List.eq_of_mem_replicate hmem)

theorem slotEmpty_initialize_plugin (s : State) (sr bs : Int) (py : PyInit) (slot : Int)
    (hs : SlotEmpty s slot) : SlotEmpty (initialize_plugin s sr bs py) slot := by
  by_cases h : s.is_initialized = true
  · rw [initialize_plugin, if_pos h]; exact hs
  · rw [initialize_plugin, if_neg h]
    cases py with
    | no_interpreter => exact slotEmpty_of_eq s _ slot hs rfl
    | import_fails => exact slotEmpty_of_eq s _ slot hs rfl
    | no_engine_class => exact slotEmpty_of_eq s _ slot hs rfl
    | instantiate_fails => exact slotEmpty_of_eq s _ slot hs rfl
    | no_analyze_method found => exact slotEmpty_of_eq s _ slot hs rfl
    | ok =>
      simp only [initialize_python]
      intro preset hp
      rcases resize_slots_getElem? s.preset_slots slot.toNat preset hp with h1 | h1
      · exact hs preset h1
      · rw [h1]; rfl

theorem slotEmpty_save_preset (s : State) (slot slot' : Int) (name : String)
    (h0 : 0 ≤ slot) (hne : slot' ≠ slot) (hs : SlotEmpty s slot) :
    SlotEmpty (save_preset s slot' name).2 slot := by
  unfold save_preset
  split
  · exact hs
  · rename_i hguard
    split
    · exact hs
    · intro preset hp
      have hidx : slot'.toNat ≠ slot.toNat := by omega
      simp only [List.getElem?_set_ne hidx] at hp
      exact hs preset hp

theorem slotEmpty_step (s t : State) (op : Op) (h : step s op = some t) (slot : Int)
    (h0 : 0 ≤ slot) (hop : ∀ name, op ≠ Op.save_preset slot name) (hs : SlotEmpty s slot) :
    SlotEmpty t slot := by
  rcases step_some_cases s t op h with ⟨sr, bs, py, _, rfl⟩ | ⟨param, _, rfl⟩ |
    ⟨param_id, value, _, rfl⟩ | ⟨slot', name, hsave, rfl⟩ | ⟨slot', _, rfl⟩ | ⟨_, hr⟩ |
    ⟨_, _, h3, _⟩
  · exact slotEmpty_initialize_plugin s sr bs py slot hs
  · exact slotEmpty_of_eq s _ slot hs rfl
  · obtain ⟨ps, h1, _⟩ := set_parameter_frame s param_id value
    exact slotEmpty_of_eq s _ slot hs (by rw [h1])
  · apply slotEmpty_save_preset s slot slot' name h0 _ hs
    intro heq
    exact hop name (by rw [hsave, heq])
  · obtain ⟨ps, h1, _⟩ := load_preset_frame s slot'
    exact slotEmpty_of_eq s _ slot hs (by rw [h1])
  · exact slotEmpty_of_eq s _ slot hs (by rw [(reset_some s t hr).2])
  · exact slotEmpty_of_eq s _ slot hs h3

theorem slotEmpty_run (ops : List Op) (s t : State) (h : run s ops = some t) (slot : Int)
    (h0 : 0 ≤ slot) (hops : ∀ name, Op.save_preset slot name ∉ ops)
    (hs : SlotEmpty s slot) : SlotEmpty t slot := by
  induction ops generalizing s with
  | nil =>
    have ht : t = s := (Option.some.inj h).symm
    rw [ht]; exact hs
  | cons op rest ih =>
    obtain ⟨u, hstep, hrun⟩ := run_cons_some s t op rest h
    apply ih u hrun
    · intro name hmem
      exact hops name (List.mem_cons_of_mem _ hmem)
    · apply slotEmpty_step s u op hstep slot h0 _ hs
      intro name hop
      exact hops name (by rw [hop]; exact List.mem_cons_self _ _)

theorem save_preset_slots_length (s : State) (slot : Int) (name : String) :
    (save_preset s slot name).2.preset_slots.length = s.preset_slots.length := by
  unfold save_preset
  split
  · rfl
  · split
    · rfl
    · simp only [List.length_set]

theorem slots_length_step (s t : State) (op : Op) (h : step s op = some t)
    (_hs : PresetsOk s) (hlen : s.preset_slots.length = 128) :
    t.preset_slots.length = 128 := by
  rcases step_some_cases s t op h with ⟨sr, bs, py, _, rfl⟩ | ⟨param, _, rfl⟩ |
    ⟨param_id, value, _, rfl⟩ | ⟨slot, name, _, rfl⟩ | ⟨slot, _, rfl⟩ | ⟨_, hr⟩ |
    ⟨_, _, h3, _⟩
  · by_cases hi : s.is_initialized = true
    · rw [initialize_plugin, if_pos hi]; exact hlen
    · rw [initialize_plugin, if_neg hi]
      cases py <;> simp only [initialize_python, resize_slots_length] <;> exact hlen
  · exact hlen
  · obtain ⟨ps, h1, _⟩ := set_parameter_frame s param_id value
    rw [h1]; exact hlen
  · rw [save_preset_slots_length]; exact hlen
  · obtain ⟨ps, h1, _⟩ := load_preset_frame s slot
    rw [h1]; exact hlen
  · rw [(reset_some s t hr).2]; exact hlen
  · rw [h3]; exact hlen

theorem slots_length_run (ops : List Op) (s t : State) (h : run s ops = some t)
    (hs : PresetsOk s) (hlen : s.preset_slots.length = 128) :
    t.preset_slots.length = 128 := by
  induction ops generalizing s with
  | nil =>
    have ht : t = s := (Option.some.inj h).symm
    rw [ht]; exact hlen
  | cons op rest ih =>
    obtain ⟨u, hstep, hrun⟩ := run_cons_some s t op rest h
    exact ih u hrun (presetsOk_step s u op hstep hs) (slots_length_step s u op hstep hs hlen)

theorem slots_length_after_initialize (ops : List Op) (s t : State) (h : run s ops = some t)
    (hs : PresetsOk s) (sr bs : Int) (hinit : Op.initialize_plugin sr bs PyInit.ok ∈ ops) :
    t.preset_slots.length = 128 := by
  induction ops generalizing s with
  | nil => simp at hinit
  | cons op rest ih =>
    obtain ⟨u, hstep, hrun⟩ := run_cons_some s t op rest h
    rcases List.mem_cons.mp hinit with hop | hop
    · subst hop
      have hu : u = initialize_plugin s sr bs PyInit.ok := (Option.some.inj hstep).symm
      apply slots_length_run rest u t hrun (presetsOk_step s u _ hstep hs)
      rw [hu]
      by_cases hi : s.is_initialized = true
      · rw [initialize_plugin, if_pos hi]
        exact hs.2.1 hi
      · rw [initialize_plugin, if_neg hi]
        simp only [initialize_python, resize_slots_length]
    · exact ih u hrun (presetsOk_step s u op hstep hs) hop

/-- C5: in every state reached by a sequence of calls that contains an `initialize` with a
working interpreter and no `save_preset` on the slot, for a slot in `[0, 128)`: the slot
exists with an empty name, and `load_preset(slot)` returns false and leaves the whole
state (every parameter value included) unchanged. -/
theorem C5_load_never_saved_slot (ops : List Op) (sr bs : Int)
    (hinit : Op.initialize_plugin sr bs PyInit.ok ∈ ops) (slot : Int) (h0 : 0 ≤ slot)
    (h128 : slot < 128) (hnever : ∀ name, Op.save_preset slot name ∉ ops)
    (s : State) (hrun : run State.new ops = some s) :
    (∃ preset, s.preset_slots[slot.toNat]? = some preset ∧ preset.name = "") ∧
    load_preset s slot = (false, s) := by
  have hlen := slots_length_after_initialize ops State.new s hrun presetsOk_new sr bs hinit
  have hempty : SlotEmpty s slot :=
    slotEmpty_run ops State.new s hrun slot h0 hnever (by
      intro preset hp
      simp [State.new] at hp)
  have hnat : slot.toNat < s.preset_slots.length := by omega
  have hp := List.getElem?_eq_getElem hnat
  have hname := hempty _ hp
  refine ⟨⟨_, hp, hname⟩, ?_⟩
  have hguard : ¬ (slot < 0 ∨ slot ≥ (s.preset_slots.length : Int)) := by
    omega
  simp only [load_preset, hguard, if_false, hp, hname, if_true]

/-- C5, a concrete run: slot 3 is saved, slot 4 never is, and `load_preset(4)` fails. -/
theorem C5_load_never_saved_slot_witness :
    ∃ s, run State.new calls_saving_slot_three = some s ∧ load_preset s 4 = (false, s) :=
  ⟨_, rfl,
    (C5_load_never_saved_slot calls_saving_slot_three 44100 512
      (by simp [calls_saving_slot_three]) 4 (by decide) (by decide)
      (by simp [calls_saving_slot_three]) _ rfl).2⟩

/-! ## Waveform extraction -/

theorem loop_count_of_le (n j S : Nat) (h : n ≤ j) (hS : 1 ≤ S) :
    loop_count (n - j) S = 0 := by
  have h0 : n - j = 0 := by omega
  rw [loop_count, h0]
  exact Nat.div_eq_of_lt (by omega)

theorem loop_count_step (n j S : Nat) (h : j < n) (hS : 1 ≤ S) :
    loop_count (n - j) S = loop_count (n - (j + S)) S + 1 := by
  unfold loop_count
  by_cases hle : j + S ≤ n
  · have h1 : n - j + S - 1 = (n - (j + S) + S - 1) + S := by omega
    rw [h1, Nat.add_div_right _ (by omega)]
  · have h0 : n - (j + S) = 0 := by omega
    have h1 : n - j + S - 1 = (n - j - 1) + S := by omega
    rw [h0, h1, Nat.add_div_right _ (by omega), Nat.div_eq_of_lt (by omega),
      Nat.div_eq_of_lt (by omega)]

/-- One iteration of the loop of `extract_waveform` at a frame that both channels hold:
the frame's display value is pushed, then `i += step` overflows or the loop goes on. -/
theorem extract_waveform_loop_step {F : Type} [Add F] [Div F] [OfNat F 2] [Inhabited F]
    (buffer : AudioBuffer F) (n S : Nat) (hn : buffer.num_samples = (n : Int))
    (hleft : buffer.left.length = n) (hright : ∀ r, buffer.right = some r → r.length = n)
    (fuel j : Nat) (waveform : List F) (hj : j < n) :
    extract_waveform_loop buffer (S : Int) (fuel + 1) (j : Int) waveform =
      if 2147483647 < j + S then none
      else extract_waveform_loop buffer (S : Int) fuel ((j + S : Nat) : Int)
        (waveform ++ [frame_value buffer j]) := by
  have hcond : (j : Int) < buffer.num_samples := by rw [hn]; exact_mod_cast hj
  have hlb : j < buffer.left.length := by rw [hleft]; exact hj
  have hl : buffer.left[j]? = some (buffer.left[j]) := List.getElem?_eq_getElem hlb
  have hnext : (j : Int) + (S : Int) = ((j + S : Nat) : Int) := by push_cast; rfl
  have hover : ((j : Int) + (S : Int) > INT_MAX) ↔ 2147483647 < j + S := by
    unfold INT_MAX; omega
  rw [extract_waveform_loop]
  simp only [hcond, if_true, Int.toNat_ofNat, hl, hover]
  cases hst : buffer.is_stereo with
  | false =>
    simp only [hnext, frame_value, hst, List.getD_eq_getElem?_getD, hl, Option.getD_some]
  | true =>
    cases hr : buffer.right with
    | none =>
      simp only [hnext, frame_value, hst, hr, List.getD_eq_getElem?_getD, hl,
        Option.getD_some]
    | some right =>
      have hrb : j < right.length := by rw [hright right hr]; exact hj
      have hrr : right[j]? = some (right[j]) := List.getElem?_eq_getElem hrb
      simp only [hnext, frame_value, hst, hr, List.getD_eq_getElem?_getD, hl, hrr,
        Option.getD_some, Option.map_some']

theorem extract_waveform_loop_done {F : Type} [Add F] [Div F] [OfNat F 2]
    (buffer : AudioBuffer F) (n : Nat) (hn : buffer.num_samples = (n : Int)) (step : Int)
    (fuel j : Nat) (waveform : List F) (hj : n ≤ j) :
    extract_waveform_loop buffer step fuel (j : Int) waveform = some waveform := by
  have hcond : ¬ (j : Int) < buffer.num_samples := by rw [hn]; exact_mod_cast not_lt.mpr hj
  cases fuel with
  | zero => rfl
  | succ fuel => rw [extract_waveform_loop, if_neg hcond]

/-- While the loop counter stays within `int`, the loop pushes the display value of
every `step`-th frame. -/
theorem extract_waveform_loop_eq {F : Type} [Add F] [Div F] [OfNat F 2] [Inhabited F]
    (buffer : AudioBuffer F) (n S : Nat) (hn : buffer.num_samples = (n : Int)) (hS : 1 ≤ S)
    (hleft : buffer.left.length = n) (hright : ∀ r, buffer.right = some r → r.length = n)
    (fuel j : Nat) (waveform : List F) (hfuel : n - j ≤ fuel)
    (hrange : j + loop_count (n - j) S * S ≤ 2147483647) :
    extract_waveform_loop buffer (S : Int) fuel (j : Int) waveform =
      some (waveform ++ (List.range (loop_count (n - j) S)).map
        (fun k => frame_value buffer (j + k * S))) := by
  induction fuel generalizing j waveform with
  | zero =>
    rw [loop_count_of_le n j S (by omega) hS]
    simp [extract_waveform_loop]
  | succ fuel ih =>
    by_cases hlt : j < n
    · have hcount := loop_count_step n j S hlt hS
      have hmul : (loop_count (n - (j + S)) S + 1) * S =
          loop_count (n - (j + S)) S * S + S := Nat.succ_mul _ _
      rw [hcount, hmul] at hrange
      rw [extract_waveform_loop_step buffer n S hn hleft hright fuel j waveform hlt,
        if_neg (by omega), ih (j + S) _ (by omega) (by omega), hcount,
        List.range_succ_eq_map, List.map_cons, List.map_map, List.append_assoc]
      have htail : (fun k => frame_value buffer (j + S + k * S)) =
          (fun k => frame_value buffer (j + k * S)) ∘ Nat.succ := by
        funext k
        simp only [Function.comp, Nat.succ_eq_add_one, Nat.add_mul, Nat.one_mul]
        congr 1
        omega
      rw [htail]
      simp
    · rw [extract_waveform_loop_done buffer n hn _ _ j waveform (by omega),
        loop_count_of_le n j S (by omega) hS]
      simp

/-- When the last `i += step` of the loop would pass `INT_MAX`, the loop runs into that
signed overflow: its behaviour is undefined. -/
theorem extract_waveform_loop_overflow {F : Type} [Add F] [Div F] [OfNat F 2] [Inhabited F]
    (buffer : AudioBuffer F) (n S : Nat) (hn : buffer.num_samples = (n : Int)) (hS : 1 ≤ S)
    (hleft : buffer.left.length = n) (hright : ∀ r, buffer.right = some r → r.length = n)
    (fuel j : Nat) (waveform : List F) (hfuel : n - j ≤ fuel) (hj : j < n)
    (hrange : 2147483647 < j + loop_count (n - j) S * S) :
    extract_waveform_loop buffer (S : Int) fuel (j : Int) waveform = none := by
  induction fuel generalizing j waveform with
  | zero => omega
  | succ fuel ih =>
    have hcount := loop_count_step n j S hj hS
    have hmul : (loop_count (n - (j + S)) S + 1) * S =
        loop_count (n - (j + S)) S * S + S := Nat.succ_mul _ _
    rw [hcount, hmul] at hrange
    rw [extract_waveform_loop_step buffer n S hn hleft hright fuel j waveform hj]
    by_cases hover : 2147483647 < j + S
    · rw [if_pos hover]
    · rw [if_neg hover]
      by_cases hnext : j + S < n
      · exact ih (j + S) _ (by omega) hnext (by omega)
      · rw [loop_count_of_le n (j + S) S (by omega) hS] at hrange
        omega

/-- The loop of `extract_waveform` ends within the fuel it is given: with at least as
much fuel as frames are left, the amount of fuel changes nothing, whatever the buffer. -/
theorem extract_waveform_loop_fuel {F : Type} [Add F] [Div F] [OfNat F 2]
    (buffer : AudioBuffer F) (n S : Nat) (hn : buffer.num_samples = (n : Int)) (hS : 1 ≤ S)
    (fuel1 fuel2 j : Nat) (waveform : List F) (h1 : n - j ≤ fuel1) (h2 : n - j ≤ fuel2) :
    extract_waveform_loop buffer (S : Int) fuel1 (j : Int) waveform =
      extract_waveform_loop buffer (S : Int) fuel2 (j : Int) waveform := by
  induction fuel1 generalizing fuel2 j waveform with
  | zero =>
    rw [extract_waveform_loop_done buffer n hn _ 0 j waveform (by omega),
      extract_waveform_loop_done buffer n hn _ fuel2 j waveform (by omega)]
  | succ fuel1 ih =>
    by_cases hlt : j < n
    · cases fuel2 with
      | zero => omega
      | succ fuel2 =>
        have hcond : (j : Int) < buffer.num_samples := by rw [hn]; exact_mod_cast hlt
        have hnext : (j : Int) + (S : Int) = ((j + S : Nat) : Int) := by push_cast; rfl
        have hrec : ∀ w, extract_waveform_loop buffer (S : Int) fuel1 ((j + S : Nat) : Int) w =
            extract_waveform_loop buffer (S : Int) fuel2 ((j + S : Nat) : Int) w :=
          fun w => ih fuel2 (j + S) w (by omega) (by omega)
        rw [extract_waveform_loop, extract_waveform_loop]
        simp only [hcond, if_true, hnext, hrec]
    · rw [extract_waveform_loop_done buffer n hn _ _ j waveform (by omega),
        extract_waveform_loop_done buffer n hn _ fuel2 j waveform (by omega)]

theorem extract_waveform_step_eq (buffer_samples : Int) (n : Nat)
    (hn : buffer_samples = (n : Int)) :
    max (1 : Int) (Int.tdiv buffer_samples 1000) = ((waveform_step n : Nat) : Int) := by
  rw [hn, waveform_step]
  have h : Int.tdiv (n : Int) 1000 = ((n / 1000 : Nat) : Int) := by
    rw [Int.tdiv_eq_ediv (by omega) (by omega)]; norm_cast
  rw [h]; norm_cast

theorem waveform_step_pos (n : Nat) : 1 ≤ waveform_step n := by
  unfold waveform_step; omega

theorem extract_waveform_samples_eq {F : Type} [Add F] [Div F] [OfNat F 2] [Inhabited F]
    (buffer : AudioBuffer F) (n : Nat) (hn : buffer.num_samples = (n : Int))
    (hleft : buffer.left.length = n) (hright : ∀ r, buffer.right = some r → r.length = n)
    (hrange : loop_count n (waveform_step n) * waveform_step n ≤ 2147483647) :
    extract_waveform_samples buffer =
      some ((List.range (loop_count n (waveform_step n))).map
        (fun k => frame_value buffer (k * waveform_step n))) := by
  unfold extract_waveform_samples
  simp only [extract_waveform_step_eq buffer.num_samples n hn]
  rw [hn, Int.toNat_ofNat]
  have h := extract_waveform_loop_eq buffer n (waveform_step n) hn (waveform_step_pos n)
    hleft hright n 0 [] (by omega) (by simpa using hrange)
  simp only [Nat.cast_zero, Nat.sub_zero, List.nil_append, Nat.zero_add] at h
  exact h

theorem extract_waveform_samples_overflow {F : Type} [Add F] [Div F] [OfNat F 2]
    [Inhabited F] (buffer : AudioBuffer F) (n : Nat) (hn : buffer.num_samples = (n : Int))
    (hleft : buffer.left.length = n) (hright : ∀ r, buffer.right = some r → r.length = n)
    (hrange : 2147483647 < loop_count n (waveform_step n) * waveform_step n) :
    extract_waveform_samples buffer = none := by
  have hpos : 0 < n := by
    rcases Nat.eq_zero_or_pos n with h | h
    · subst h
      simp [loop_count, waveform_step] at hrange
    · exact h
  unfold extract_waveform_samples
  simp only [extract_waveform_step_eq buffer.num_samples n hn]
  rw [hn, Int.toNat_ofNat]
  have h := extract_waveform_loop_overflow buffer n (waveform_step n) hn
    (waveform_step_pos n) hleft hright n 0 [] (by omega) hpos (by simpa using hrange)
  simp only [Nat.cast_zero] at h
  exact h

theorem loop_count_eq_ceil (n S : Nat) (hS : 1 ≤ S) :
    loop_count n S = spec_waveform_length n S := by
  have hSpos : (0 : ℚ) < (S : ℚ) := by exact_mod_cast hS
  apply le_antisymm
  · have h : n ≤ spec_waveform_length n S * S := by
      have h1 : (n : ℚ) / (S : ℚ) ≤ (spec_waveform_length n S : ℚ) := Nat.le_ceil _
      rw [div_le_iff₀ hSpos] at h1
      exact_mod_cast h1
    unfold loop_count
    apply Nat.le_of_lt_succ
    rw [Nat.div_lt_iff_lt_mul (by omega)]
    have h2 : (spec_waveform_length n S).succ * S = spec_waveform_length n S * S + S :=
      Nat.succ_mul _ _
    omega
  · unfold spec_waveform_length
    apply Nat.ceil_le.mpr
    rw [div_le_iff₀ hSpos]
    have h : n ≤ loop_count n S * S := by
      unfold loop_count
      have h1 := Nat.div_add_mod (n + S - 1) S
      have h2 := Nat.mod_lt (n + S - 1) (show S > 0 by omega)
      have h3 : S * ((n + S - 1) / S) = (n + S - 1) / S * S := Nat.mul_comm _ _
      omega
    exact_mod_cast h

theorem loop_count_index_lt (n S k : Nat) (hS : 1 ≤ S) (hk : k < loop_count n S) :
    k * S < n := by
  unfold loop_count at hk
  have h1 : (k + 1) ≤ (n + S - 1) / S := hk
  have h2 := (Nat.le_div_iff_mul_le (show 0 < S by omega)).mp h1
  have h3 : (k + 1) * S = k * S + S := Nat.succ_mul k S
  omega

theorem last_counter_eq (n : Nat) :
    last_counter n = loop_count n (waveform_step n) * waveform_step n := by
  rw [last_counter, loop_count_eq_ceil n (waveform_step n) (waveform_step_pos n)]

theorem extract_waveform_publishes (s : State) (block : AudioBuffer F32) :
    extract_waveform s block =
      (extract_waveform_samples block).map
        (fun published => { s with waveform_data := published }) := by
  unfold extract_waveform
  cases extract_waveform_samples block <;> rfl

/-- C6 (as amended): for a block of `n >= 0` frames whose channels hold `n` samples and
for which the loop counter stays within `int`, that is
`ceil(n / step) * step <= 2147483647` with `step = max(1, n / 1000)` in integer division,
`extract_waveform` builds a waveform of exactly `ceil(n / step)` samples; the `k`-th one
is taken at frame `k * step`, which lies within the block: it is the left sample for a
mono block and `(left + right) / 2` for a stereo block.  A block of 2000 frames gives
exactly 1000 samples and a block of 500 frames exactly 500.  That waveform is what
`extract_waveform` publishes: the call returns the plugin with `waveform_data_` replaced
by it and nothing else changed. -/
theorem C6_extract_waveform {F : Type} [Add F] [Div F] [OfNat F 2] [Inhabited F]
    (buffer : AudioBuffer F) (n : Nat) (hn : buffer.num_samples = (n : Int))
    (hleft : buffer.left.length = n) (hright : ∀ r, buffer.right = some r → r.length = n)
    (hrange : last_counter n ≤ 2147483647) :
    (∃ waveform, extract_waveform_samples buffer = some waveform ∧
      waveform.length = spec_waveform_length n (waveform_step n) ∧
      (∀ k, k < spec_waveform_length n (waveform_step n) →
        k * waveform_step n < n ∧
        (buffer.is_stereo = false ∨ buffer.right = none →
          waveform[k]? = buffer.left[k * waveform_step n]?) ∧
        (∀ right, buffer.is_stereo = true → buffer.right = some right →
          ∃ l r, buffer.left[k * waveform_step n]? = some l ∧
            right[k * waveform_step n]? = some r ∧
            waveform[k]? = some ((l + r) / 2))) ∧
      (n = 2000 → waveform.length = 1000) ∧
      (n = 500 → waveform.length = 500)) ∧
    (∀ (s : State) (block : AudioBuffer F32),
      extract_waveform s block =
        (extract_waveform_samples block).map
          (fun published => { s with waveform_data := published })) := by
  have hS : 1 ≤ waveform_step n := waveform_step_pos n
  have hceil := loop_count_eq_ceil n (waveform_step n) hS
  rw [last_counter_eq] at hrange
  have heq := extract_waveform_samples_eq buffer n hn hleft hright hrange
  refine ⟨⟨_, heq, ?_, ?_, ?_, ?_⟩, extract_waveform_publishes⟩
  · rw [← hceil]; simp
  · intro k hk
    rw [← hceil] at hk
    have hidx := loop_count_index_lt n (waveform_step n) k hS hk
    have hout : ((List.range (loop_count n (waveform_step n))).map
        (fun k => frame_value buffer (k * waveform_step n)))[k]? =
        some (frame_value buffer (k * waveform_step n)) := by
      rw [List.getElem?_map, List.getElem?_range hk]
      rfl
    have hlb : k * waveform_step n < buffer.left.length := by rw [hleft]; exact hidx
    have hl : buffer.left[k * waveform_step n]? = some (buffer.left[k * waveform_step n]) :=
      List.getElem?_eq_getElem hlb
    refine ⟨hidx, ?_, ?_⟩
    · intro hmono
      rw [hout, hl]
      rcases hmono with hmono | hmono
      · simp [frame_value, hmono, List.getD_eq_getElem?_getD, hl]
      · cases hst : buffer.is_stereo <;>
          simp [frame_value, hmono, hst, List.getD_eq_getElem?_getD, hl]
    · intro right hst hr
      have hrb : k * waveform_step n < right.length := by rw [hright right hr]; exact hidx
      have hrr : right[k * waveform_step n]? = some (right[k * waveform_step n]) :=
        List.getElem?_eq_getElem hrb
      refine ⟨_, _, hl, hrr, ?_⟩
      rw [hout]
      simp [frame_value, hst, hr, List.getD_eq_getElem?_getD, hl, hrr]
  · intro h
    rw [List.length_map, List.length_range, h]
    decide
  · intro h
    rw [List.length_map, List.length_range, h]
    decide

/-- C6, the claim as stated fails for the largest blocks: for a block of
`2147483647` frames the step is `2147483` and the loop runs 1001 times; the `i += step`
that ends the last iteration takes the counter from `2147483000` to `2149630483`, beyond
`INT_MAX`.  That signed overflow is undefined behaviour, so no waveform of
`ceil(n / step)` samples is built or published. -/
theorem C6_counter_overflow_counterexample :
    buffer_int_max_frames.num_samples = 2147483647 ∧
    buffer_int_max_frames.left.length = 2147483647 ∧
    waveform_step 2147483647 = 2147483 ∧
    loop_count 2147483647 2147483 = 1001 ∧
    1000 * 2147483 + 2147483 = 2149630483 ∧
    extract_waveform_samples buffer_int_max_frames = none ∧
    extract_waveform state_running buffer_int_max_frames = none := by
  have hlen : buffer_int_max_frames.left.length = 2147483647 := by
    simp only [buffer_int_max_frames, process_buffer, List.length_take, List.length_replicate]
    rfl
  have hright : ∀ r, buffer_int_max_frames.right = some r → r.length = 2147483647 := by
    intro r hr
    simp only [buffer_int_max_frames, process_buffer, Option.some.injEq] at hr
    rw [← hr]
    simp only [List.length_take, List.length_replicate]
    rfl
  have hnone : extract_waveform_samples buffer_int_max_frames = none :=
    extract_waveform_samples_overflow buffer_int_max_frames 2147483647 rfl hlen hright
      (by decide)
  refine ⟨rfl, hlen, by decide, by decide, by decide, hnone, ?_⟩
  rw [extract_waveform_publishes, hnone]
  rfl

/-- C6, a concrete block: three stereo frames are published as three samples, the second
one being the mean of the second frame of both channels. -/
theorem C6_extract_waveform_witness :
    ∃ waveform,
      extract_waveform state_running buffer_three_frames =
        some { state_running with waveform_data := waveform } ∧
      waveform.length = 3 ∧
      ∃ l r, buffer_three_frames.left[1]? = some l ∧
        [F32.num 3, F32.num 4, F32.num 5][1]? = some r ∧
        waveform[1]? = some ((l + r) / 2) := by
  have hlen3 : spec_waveform_length 3 (waveform_step 3) = 3 := by
    rw [← loop_count_eq_ceil 3 (waveform_step 3) (by decide)]
    decide
  have hright : ∀ r, buffer_three_frames.right = some r → r.length = 3 := by
    intro r hr
    simp only [buffer_three_frames, Option.some.injEq] at hr
    rw [← hr]
    rfl
  have hrange : last_counter 3 ≤ 2147483647 := by
    rw [last_counter_eq]
    decide
  obtain ⟨⟨waveform, hw, hl, hk, _, _⟩, hpub⟩ :=
    C6_extract_waveform buffer_three_frames 3 rfl rfl hright hrange
  refine ⟨waveform, by rw [hpub, hw]; rfl, by rw [hl, hlen3], ?_⟩
  have h1 := (hk 1 (by rw [hlen3]; decide)).2.2 _ rfl rfl
  have hstep : 1 * waveform_step 3 = 1 := by decide
  rw [hstep] at h1
  exact h1

/-! ## The analysis queue -/

theorem process_buffer_samples (sample_rate : Int) (l r : List F32) (n : Int)
    (hok : BlockOk (l, r, n)) (h64 : Int.tmod n 64 = 0) :
    extract_waveform_samples (process_buffer sample_rate l r n) =
      some ((List.range (loop_count n.toNat (waveform_step n.toNat))).map
        (fun k => frame_value (process_buffer sample_rate l r n)
          (k * waveform_step n.toNat))) := by
  obtain ⟨h0, hl, hr, hrange⟩ := hok
  have h0 : 0 ≤ n := h0
  have hn : (process_buffer sample_rate l r n).num_samples = (n.toNat : Int) := by
    simp only [process_buffer]
    omega
  apply extract_waveform_samples_eq _ n.toNat hn
  · simp only [process_buffer, List.length_take]
    exact Nat.min_eq_left hl
  · intro right hright
    simp only [process_buffer, Option.some.injEq] at hright
    rw [← hright, List.length_take]
    exact Nat.min_eq_left hr
  · rw [← last_counter_eq]
    exact hrange h64

theorem run_process_cons (s : State) (block : List F32 × List F32 × Int)
    (rest : List (List F32 × List F32 × Int)) :
    run s (process_calls (block :: rest)) =
      match process s block.1 block.2.1 block.2.2 with
      | none => none
      | some u => run u (process_calls rest) := rfl

/-- A block that `process` handles within defined behaviour, on a running plugin with
analysis enabled: the call returns, and the queue has one more element at its back. -/
theorem process_running (s : State) (l r : List F32) (n : Int)
    (hinit : s.is_initialized = true) (hen : s.analysis_enabled = true)
    (hok : BlockOk (l, r, n)) :
    ∃ t, process s l r n = some t ∧
      t.analysis_queue = s.analysis_queue ++
        [{ num_samples := n, sample_rate := s.sample_rate, is_stereo := true }] ∧
      t.is_initialized = true ∧ t.analysis_enabled = true ∧
      t.sample_rate = s.sample_rate := by
  have henq : process_enqueue s (process_buffer s.sample_rate l r n) =
      { s with analysis_queue := s.analysis_queue ++
          [{ num_samples := n, sample_rate := s.sample_rate, is_stereo := true }] } := by
    unfold process_enqueue
    rw [if_pos hen]
    rfl
  rw [process_initialized s l r n hinit hok.1 hok.2.1 hok.2.2.1, henq]
  by_cases h64 : Int.tmod n 64 = 0
  · rw [if_pos h64, extract_waveform_publishes,
      process_buffer_samples s.sample_rate l r n hok h64]
    exact ⟨_, rfl, rfl, hinit, hen, rfl⟩
  · rw [if_neg h64]
    exact ⟨_, rfl, rfl, hinit, hen, rfl⟩

theorem run_process_calls_queue (blocks : List (List F32 × List F32 × Int))
    (hblocks : ∀ block ∈ blocks, BlockOk block) (s : State)
    (hinit : s.is_initialized = true) (hen : s.analysis_enabled = true) :
    ∃ t, run s (process_calls blocks) = some t ∧
      t.analysis_queue = s.analysis_queue ++ blocks.map
        (fun block =>
          { num_samples := block.2.2, sample_rate := s.sample_rate, is_stereo := true }) := by
  induction blocks generalizing s with
  | nil => exact ⟨s, rfl, by simp⟩
  | cons block rest ih =>
    obtain ⟨u, hu, hq, hi, he, hsr⟩ := process_running s block.1 block.2.1 block.2.2 hinit hen
      (hblocks block (List.mem_cons_self _ _))
    obtain ⟨t, ht, htq⟩ := ih (fun b hb => hblocks b (List.mem_cons_of_mem _ hb)) u hi he
    refine ⟨t, ?_, ?_⟩
    · have hrun : run s (process_calls (block :: rest)) =
          match process s block.1 block.2.1 block.2.2 with
          | none => none
          | some u => run u (process_calls rest) := rfl
      rw [hrun, hu]
      exact ht
    · rw [htq, hq, hsr]
      simp

theorem blockOk_of_not_multiple (l r : List F32) (n : Nat) (hl : n ≤ l.length)
    (hr : n ≤ r.length) (h64 : Int.tmod (n : Int) 64 ≠ 0) : BlockOk (l, r, (n : Int)) :=
  ⟨Int.natCast_nonneg n, by simpa using hl, by simpa using hr, fun h => absurd h h64⟩

/-- C7 (as amended): the analysis queue is an unbounded FIFO.  In the Running state with
analysis enabled and no dequeue in between, every `process` call on a block it handles
within defined behaviour (a sample count that is not negative, channels holding that many
samples, no overflow of the waveform loop) returns and appends one element at the back of
the queue: after any sequence of such calls the queue holds the elements it held before
followed by one element for every processed block, in call order, carrying the block's
sample count and the plugin's sample rate, and none is dropped. -/
theorem C7_queue_unbounded_fifo (blocks : List (List F32 × List F32 × Int))
    (hblocks : ∀ block ∈ blocks, BlockOk block) (s : State)
    (hinit : s.is_initialized = true) (hen : s.analysis_enabled = true) :
    ∃ t, run s (process_calls blocks) = some t ∧
      t.analysis_queue = s.analysis_queue ++ blocks.map
        (fun block =>
          { num_samples := block.2.2, sample_rate := s.sample_rate, is_stereo := true }) :=
  run_process_calls_queue blocks hblocks s hinit hen

set_option maxRecDepth 8192 in
/-- C7, the claim as stated fails: `process` pushes onto a `std::queue` that has no
capacity and nothing ever drops a block.  No bound `N` holds, `N + 1` calls leaving
`N + 1` elements; and ten blocks of 1 to 10 frames, the frame count serving as tag, all
stay queued, oldest first, instead of only the blocks 8, 9, 10. -/
theorem C7_no_capacity_counterexample :
    (¬ ∃ N : Nat, ∀ blocks : List (List F32 × List F32 × Int),
      (∀ block ∈ blocks, BlockOk block) →
      ∀ t, run state_running (process_calls blocks) = some t →
        t.analysis_queue.length ≤ N) ∧
    (run state_running (process_calls
      [silent_block 1, silent_block 2, silent_block 3, silent_block 4, silent_block 5,
       silent_block 6, silent_block 7, silent_block 8, silent_block 9,
       silent_block 10])).map
        (fun t => t.analysis_queue.map QueuedBuffer.num_samples) =
      some [1, 2, 3, 4, 5, 6, 7, 8, 9, 10] := by
  have hinit : state_running.is_initialized = true := by decide
  have hen : state_running.analysis_enabled = true := by decide
  have hq : state_running.analysis_queue = [] := by decide
  constructor
  · rintro ⟨N, hN⟩
    have hok : ∀ block ∈ List.replicate (N + 1) (silent_block 1), BlockOk block := by
      intro block hblock
      rw [List.eq_of_mem_replicate hblock]
      exact blockOk_of_not_multiple _ _ 1 (by decide) (by decide) (by decide)
    obtain ⟨t, ht, htq⟩ := run_process_calls_queue _ hok state_running hinit hen
    have h := hN _ hok t ht
    rw [htq, hq] at h
    simp only [List.nil_append, List.length_map, List.length_replicate] at h
    omega
  · decide

/-- C7, a concrete run: three one-frame blocks processed by a running plugin are all
queued, in call order. -/
theorem C7_queue_unbounded_fifo_witness :
    ∃ t, run state_running
        (process_calls [tagged_block 1, tagged_block 2, tagged_block 3]) = some t ∧
      t.analysis_queue = state_running.analysis_queue ++
        [tagged_block 1, tagged_block 2, tagged_block 3].map
          (fun block =>
            { num_samples := block.2.2, sample_rate := state_running.sample_rate,
              is_stereo := true }) :=
  C7_queue_unbounded_fifo _
    (by
      intro block hblock
      simp only [List.mem_cons, List.mem_singleton, List.not_mem_nil, or_false] at hblock
      rcases hblock with h | h | h <;> rw [h] <;>
        exact blockOk_of_not_multiple _ _ 1 (by decide) (by decide) (by decide))
    state_running (by decide) (by decide)

/-! ## The current analysis result -/

theorem float_update_eq (current : AnalysisResult) (py_dict : PyObject) (key : String)
    (f : AnalysisResult → F32 → AnalysisResult) (previous : F32)
    (hprev : f current previous = current) :
    (match py_dict.getItemString key with
      | some value => if value.isFloat then f current value.asFloat else current
      | none => current) = f current (float_field py_dict key previous) := by
  unfold float_field
  cases py_dict.getItemString key with
  | none => exact hprev.symm
  | some value => cases value <;> simp [PyObject.isFloat, PyObject.asFloat, hprev]

theorem string_update_eq (current : AnalysisResult) (py_dict : PyObject) (key : String)
    (f : AnalysisResult → String → AnalysisResult) (previous : String)
    (hprev : f current previous = current) (henc : Encodable py_dict key) :
    (match py_dict.getItemString key with
      | some value =>
        if value.isUnicode then value.asUTF8.map (fun str => f current str) else some current
      | none => some current) = some (f current (string_field py_dict key previous)) := by
  unfold Encodable at henc
  unfold string_field
  cases hget : py_dict.getItemString key with
  | none => simp [hprev]
  | some value =>
    cases value with
    | unicode utf8 =>
      cases utf8 with
      | none => exact absurd hget henc
      | some str => simp [PyObject.isUnicode, PyObject.asUTF8]
    | none => simp [PyObject.isUnicode, hprev]
    | float x => simp [PyObject.isUnicode, hprev]
    | long n => simp [PyObject.isUnicode, hprev]
    | dict items => simp [PyObject.isUnicode, hprev]

theorem string_update_none (current : AnalysisResult) (py_dict : PyObject) (key : String)
    (f : AnalysisResult → String → AnalysisResult) (henc : ¬ Encodable py_dict key) :
    (match py_dict.getItemString key with
      | some value =>
        if value.isUnicode then value.asUTF8.map (fun str => f current str) else some current
      | none => some current) = none := by
  unfold Encodable at henc
  rw [of_not_not henc]
  rfl

theorem parse_analysis_result_eq (current : AnalysisResult) (py_dict : PyObject)
    (hkey : Encodable py_dict "key") (hgenre : Encodable py_dict "primary_genre")
    (hmood : Encodable py_dict "mood") :
    parse_analysis_result current py_dict =
      some { tempo_bpm := float_field py_dict "tempo_bpm" current.tempo_bpm,
             key := string_field py_dict "key" current.key,
             primary_genre := string_field py_dict "primary_genre" current.primary_genre,
             mood := string_field py_dict "mood" current.mood,
             energy_level := float_field py_dict "energy_level" current.energy_level,
             confidence_score :=
               float_field py_dict "confidence_score" current.confidence_score,
             duration_seconds := current.duration_seconds,
             extended_features := current.extended_features } := by
  unfold parse_analysis_result
  simp only []
  rw [float_update_eq current py_dict "tempo_bpm"
      (fun c x => { c with tempo_bpm := x }) current.tempo_bpm rfl]
  rw [string_update_eq _ py_dict "key" (fun c x => { c with key := x }) current.key rfl hkey]
  rw [Option.some_bind]
  rw [string_update_eq _ py_dict "primary_genre"
      (fun c x => { c with primary_genre := x }) current.primary_genre rfl hgenre]
  rw [Option.some_bind]
  rw [string_update_eq _ py_dict "mood" (fun c x => { c with mood := x }) current.mood rfl
      hmood]
  rw [Option.some_bind]
  rw [float_update_eq _ py_dict "energy_level"
      (fun c x => { c with energy_level := x }) current.energy_level rfl]
  rw [float_update_eq _ py_dict "confidence_score"
      (fun c x => { c with confidence_score := x }) current.confidence_score rfl]

theorem parse_analysis_result_none (current : AnalysisResult) (py_dict : PyObject)
    (henc : ¬ (Encodable py_dict "key" ∧ Encodable py_dict "primary_genre" ∧
      Encodable py_dict "mood")) :
    parse_analysis_result current py_dict = none := by
  unfold parse_analysis_result
  simp only []
  rw [float_update_eq current py_dict "tempo_bpm"
      (fun c x => { c with tempo_bpm := x }) current.tempo_bpm rfl]
  by_cases hkey : Encodable py_dict "key"
  · rw [string_update_eq _ py_dict "key" (fun c x => { c with key := x }) current.key rfl
      hkey, Option.some_bind]
    by_cases hgenre : Encodable py_dict "primary_genre"
    · rw [string_update_eq _ py_dict "primary_genre"
        (fun c x => { c with primary_genre := x }) current.primary_genre rfl hgenre,
        Option.some_bind]
      have hmood : ¬ Encodable py_dict "mood" := fun h => henc ⟨hkey, hgenre, h⟩
      rw [string_update_none _ py_dict "mood" (fun c x => { c with mood := x }) hmood]
      rfl
    · rw [string_update_none _ py_dict "primary_genre"
        (fun c x => { c with primary_genre := x }) hgenre]
      rfl
  · rw [string_update_none _ py_dict "key" (fun c x => { c with key := x }) hkey]
    rfl

/-- C8 (as amended): `analyze_buffer` updates the current result field by field.  With no
engine function, or, through an engine function the plugin owns, a failed conversion, a
null result or a result that is not a dictionary, the call returns and the whole state,
hence the current result, is exactly the previous one.  With an engine function the
plugin owns and a dictionary whose `key`, `primary_genre` and `mood`, where they are
strings, have a UTF-8 encoding, the call returns and each of the six fields `tempo_bpm`,
`key`, `primary_genre`, `mood`, `energy_level`, `confidence_score` independently takes
the response's value when the dictionary has it with the right type (a string up to its
first NUL character) and keeps its previous value otherwise, while `duration_seconds` and
`extended_features` always keep their previous value.  When one of the three is a string
without UTF-8 encoding the call has no defined result. -/
theorem C8_result_updated_field_by_field (s : State) (call : EngineCall) :
    (NoDictionary s call → (analyze_buffer s call).map Prod.snd = some s) ∧
    (∀ d, s.pAnalyzeFunc = Handle.owned → call = EngineCall.returns (some d) →
      d.isDict = true →
      ((Encodable d "key" ∧ Encodable d "primary_genre" ∧ Encodable d "mood") →
        (analyze_buffer s call).map Prod.snd = some { s with current_analysis :=
          { tempo_bpm := float_field d "tempo_bpm" s.current_analysis.tempo_bpm,
            key := string_field d "key" s.current_analysis.key,
            primary_genre :=
              string_field d "primary_genre" s.current_analysis.primary_genre,
            mood := string_field d "mood" s.current_analysis.mood,
            energy_level := float_field d "energy_level" s.current_analysis.energy_level,
            confidence_score :=
              float_field d "confidence_score" s.current_analysis.confidence_score,
            duration_seconds := s.current_analysis.duration_seconds,
            extended_features := s.current_analysis.extended_features } }) ∧
      (¬ (Encodable d "key" ∧ Encodable d "primary_genre" ∧ Encodable d "mood") →
        analyze_buffer s call = none)) := by
  constructor
  · intro h
    unfold analyze_buffer
    rcases h with h | ⟨h, h2 | h2 | ⟨r, h2, hr⟩⟩
    · rw [h]
      rfl
    · rw [h, h2]
      rfl
    · rw [h, h2]
      rfl
    · rw [h, h2]
      simp only [hr, Bool.false_eq_true, if_false]
      rfl
  · intro d hf hcall hd
    subst hcall
    unfold analyze_buffer
    rw [hf]
    simp only [hd, if_true]
    constructor
    · rintro ⟨hkey, hgenre, hmood⟩
      rw [parse_analysis_result_eq s.current_analysis d hkey hgenre hmood]
      rfl
    · intro henc
      rw [parse_analysis_result_none s.current_analysis d henc]

set_option maxRecDepth 8192 in
/-- C8, the claim as stated fails: a plugin whose engine answered one analysis with tempo
100 and key "C" receives, for the next analysis, a dictionary holding a float
`tempo_bpm = 120` and a `key` that is not a string.  The result then differs from the
previous one, has the new tempo, and still has the previous key, genre and mood: a mix of
two analyses. -/
theorem C8_partial_update_counterexample :
    (analyze_buffer state_running (EngineCall.returns (some response_previous))).map
      Prod.snd = some state_analyzed ∧
    state_analyzed.current_analysis.tempo_bpm = F32.num 100 ∧
    state_analyzed.current_analysis.key = "C" ∧
    ((analyze_buffer state_analyzed (EngineCall.returns (some response_partial))).map
      (fun out => decide (out.2.current_analysis = state_analyzed.current_analysis))) =
        some false ∧
    ((analyze_buffer state_analyzed (EngineCall.returns (some response_partial))).map
      (fun out => out.2.current_analysis.tempo_bpm)) = some (F32.num 120) ∧
    ((analyze_buffer state_analyzed (EngineCall.returns (some response_partial))).map
      (fun out => out.2.current_analysis.key)) = some "C" ∧
    ((analyze_buffer state_analyzed (EngineCall.returns (some response_partial))).map
      (fun out => out.2.current_analysis.primary_genre)) = some "house" ∧
    ((analyze_buffer state_analyzed (EngineCall.returns (some response_partial))).map
      (fun out => out.2.current_analysis.mood)) = some "dark" := by
  decide

set_option maxRecDepth 8192 in
/-- C8, concrete calls: a dictionary with all six fields well typed replaces all six; and
a dictionary whose only entry is a `key` holding `A`, NUL, `B` leaves the key `"A"`, the
text up to the NUL, and the five other fields as they were; and a dictionary whose `mood`
has no UTF-8 encoding leaves the call without a defined result. -/
theorem C8_result_updated_field_by_field_witness :
    (analyze_buffer state_analyzed (EngineCall.returns (some response_full))).map
      (fun out => out.2.current_analysis) =
      some { tempo_bpm := F32.num 120, key := "Am", primary_genre := "techno",
             mood := "bright", energy_level := F32.num 2, confidence_score := F32.num 3,
             duration_seconds := F32.num 0, extended_features := [] } ∧
    (analyze_buffer state_analyzed (EngineCall.returns (some response_nul_key))).map
      (fun out => out.2.current_analysis) =
      some { result_previous with key := "A" } ∧
    analyze_buffer state_analyzed (EngineCall.returns (some response_unencodable_mood)) =
      none := by
  have hnone := ((C8_result_updated_field_by_field state_analyzed
    (EngineCall.returns (some response_unencodable_mood))).2 response_unencodable_mood
      (by decide) rfl (by decide)).2 (fun henc => henc.2.2 rfl)
  have h := ((C8_result_updated_field_by_field state_analyzed
    (EngineCall.returns (some response_full))).2 response_full (by decide) rfl
      (by decide)).1
      ⟨(fun h => by cases h), (fun h => by cases h), (fun h => by cases h)⟩
  have h2 := congrArg (Option.map State.current_analysis) h
  rw [Option.map_map] at h2
  have k := ((C8_result_updated_field_by_field state_analyzed
    (EngineCall.returns (some response_nul_key))).2 response_nul_key (by decide) rfl
      (by decide)).1
      ⟨(fun h => by cases h), (fun h => by cases h), (fun h => by cases h)⟩
  have k2 := congrArg (Option.map State.current_analysis) k
  rw [Option.map_map] at k2
  rw [show (fun out : AnalysisResult × State => out.2.current_analysis) =
    State.current_analysis ∘ Prod.snd from rfl, h2, k2]
  exact ⟨by decide, by decide, hnone⟩

/-! ## Reset and repeated initialization -/

set_option maxRecDepth 8192 in
/-- C9, the code at the failing input: a running plugin with analysis enabled processes
one block of one frame and is then reset.  `process` returns and leaves one element in
the queue, a member-wise copy of its local `AudioBuffer` whose channels the destructor of
that local buffer has freed.  The `pop` in `reset` destroys that element and frees the
same channels again, so `reset` has no defined result: the queue is not emptied, no
parameter is put back to its default and the current result is not cleared.  The same
holds in every state with a block queued; only with an empty queue does `reset` return,
and then with the effect the claim describes. -/
theorem C9_reset_frees_queued_channels_twice :
    state_running.is_initialized = true ∧
    state_running.analysis_enabled = true ∧
    (process state_running [F32.num 0] [F32.num 0] 1).map (fun t => t.analysis_queue) =
      some [{ num_samples := 1, sample_rate := 44100, is_stereo := true }] ∧
    (process state_running [F32.num 0] [F32.num 0] 1).bind reset = none ∧
    run State.new [Op.initialize_plugin 44100 512 PyInit.ok,
      Op.process [F32.num 0] [F32.num 0] 1, Op.reset] = none ∧
    (∀ s : State, s.analysis_queue ≠ [] → reset s = none) ∧
    (∀ s : State, s.analysis_queue = [] →
      reset s = some { s with
        parameters := s.parameters.map
          (fun param => { param with current_value := param.default_value })
        current_analysis := AnalysisResult.new }) :=
  ⟨by decide, by decide, by decide, by decide, by decide, reset_queued, reset_empty_queue⟩

/-- C10: `initialize` is a no-op on an initialized plugin: whatever the arguments and
whatever the interpreter would do, the whole state is unchanged (sample rate, block size,
preset slots, parameters, queue, worker flag), and no further worker thread is
started. -/
theorem C10_initialize_twice (s : State) (hinit : s.is_initialized = true)
    (sample_rate block_size : Int) (py : PyInit) :
    initialize_plugin s sample_rate block_size py = s ∧
    (initialize_plugin s sample_rate block_size py).workers_started = s.workers_started := by
  have h : initialize_plugin s sample_rate block_size py = s := by
    rw [initialize_plugin, if_pos hinit]
  exact ⟨h, by rw [h]⟩

/-- C10, a concrete run: a second `initialize` with other arguments changes nothing and
the plugin has still started one worker only. -/
theorem C10_initialize_twice_witness :
    initialize_plugin state_running 48000 256 PyInit.ok = state_running ∧
    (initialize_plugin state_running 48000 256 PyInit.ok).workers_started = 1 := by
  have h := C10_initialize_twice state_running (by decide) 48000 256 PyInit.ok
  exact ⟨h.1, by rw [h.2]; decide⟩

/-! ## Registration while running -/

/-- C11 (as amended): `add_parameter` has no lifecycle test.  In every state, Running or
not, it appends the parameter to the vector, maps the parameter's id to that last
position, keeps the mapping of every other id, and changes no other member. -/
theorem C11_add_parameter_any_state (s : State) (param : PluginParameter) :
    (add_parameter s param).parameters = s.parameters ++ [param] ∧
    (add_parameter s param).param_id_to_index.find param.id = some s.parameters.length ∧
    (∀ id, id ≠ param.id →
      (add_parameter s param).param_id_to_index.find id = s.param_id_to_index.find id) ∧
    (add_parameter s param).is_initialized = s.is_initialized ∧
    add_parameter s param =
      { s with parameters := (add_parameter s param).parameters,
               param_id_to_index := (add_parameter s param).param_id_to_index } := by
  refine ⟨rfl, ?_, ?_, rfl, rfl⟩
  · simp [add_parameter, StdMap.find_assign_self]
  · intro id hid
    simp only [add_parameter]
    exact StdMap.find_assign_ne _ _ _ _ hid

set_option maxRecDepth 8192 in
/-- C11, the claim as stated fails: on a running plugin with an empty registry,
`add_parameter` is not rejected; the parameter list goes from empty to holding the
parameter and the index map from empty to mapping id 1 to position 0. -/
theorem C11_registration_while_running_counterexample :
    state_running.is_initialized = true ∧
    state_running.parameters = [] ∧
    state_running.param_id_to_index = [] ∧
    (add_parameter state_running gain_parameter).parameters = [gain_parameter] ∧
    (add_parameter state_running gain_parameter).param_id_to_index = [(1, 0)] ∧
    (add_parameter state_running gain_parameter).parameters ≠ state_running.parameters ∧
    (add_parameter state_running gain_parameter).param_id_to_index ≠
      state_running.param_id_to_index := by
  decide

set_option maxRecDepth 8192 in
/-- C11, a concrete call: registering `gain` on a running plugin makes it readable and
writable through its id. -/
theorem C11_add_parameter_any_state_witness :
    (add_parameter state_running gain_parameter).param_id_to_index.find 1 = some 0 ∧
    get_parameter (set_parameter (add_parameter state_running gain_parameter)
      1 (F32.num 5)).2 1 = F32.num 1 :=
  ⟨(C11_add_parameter_any_state state_running gain_parameter).2.1, by decide⟩

/-! ## The waveform cadence and the waveform length -/

/-- What `process` does to the published waveform of an initialized plugin, for a block it
handles within defined behaviour: a block whose sample count is a multiple of 64 replaces
it, any other block leaves it as it is. -/
theorem process_waveform (s : State) (l r : List F32) (n : Int)
    (hinit : s.is_initialized = true) (hok : BlockOk (l, r, n)) :
    ∃ t, process s l r n = some t ∧ t.is_initialized = true ∧
      t.waveform_data =
        if Int.tmod n 64 = 0 then
          (List.range (loop_count n.toNat (waveform_step n.toNat))).map
            (fun k => frame_value (process_buffer s.sample_rate l r n)
              (k * waveform_step n.toNat))
        else s.waveform_data := by
  have henq : (process_enqueue s (process_buffer s.sample_rate l r n)).is_initialized = true ∧
      (process_enqueue s (process_buffer s.sample_rate l r n)).waveform_data =
        s.waveform_data := by
    unfold process_enqueue
    split
    · exact ⟨hinit, rfl⟩
    · exact ⟨hinit, rfl⟩
  rw [process_initialized s l r n hinit hok.1 hok.2.1 hok.2.2.1]
  by_cases h64 : Int.tmod n 64 = 0
  · rw [if_pos h64, if_pos h64, extract_waveform_publishes,
      process_buffer_samples s.sample_rate l r n hok h64]
    exact ⟨_, rfl, henq.1, rfl⟩
  · rw [if_neg h64, if_neg h64]
    exact ⟨_, rfl, henq.1, henq.2⟩

theorem run_process_calls_waveform_unchanged (blocks : List (List F32 × List F32 × Int))
    (s : State) (hinit : s.is_initialized = true)
    (hblocks : ∀ block ∈ blocks, BlockOk block ∧ Int.tmod block.2.2 64 ≠ 0) :
    ∃ t, run s (process_calls blocks) = some t ∧ t.waveform_data = s.waveform_data := by
  induction blocks generalizing s with
  | nil => exact ⟨s, rfl, rfl⟩
  | cons block rest ih =>
    have hb := hblocks block (List.mem_cons_self _ _)
    obtain ⟨u, hu, hui, huw⟩ := process_waveform s block.1 block.2.1 block.2.2 hinit hb.1
    rw [if_neg hb.2] at huw
    obtain ⟨t, ht, htw⟩ := ih u hui (fun b hb => hblocks b (List.mem_cons_of_mem _ hb))
    refine ⟨t, ?_, htw.trans huw⟩
    have hrun : run s (process_calls (block :: rest)) =
        match process s block.1 block.2.1 block.2.2 with
        | none => none
        | some u => run u (process_calls rest) := rfl
    rw [hrun, hu]
    exact ht

theorem blockOk_silent_block (n : Nat)
    (hrange : loop_count n (waveform_step n) * waveform_step n ≤ 2147483647) :
    BlockOk (silent_block n) := by
  refine ⟨Int.natCast_nonneg n, ?_, ?_, ?_⟩
  · simp [silent_block]
  · simp [silent_block]
  · intro _
    rw [last_counter_eq]
    simpa [silent_block] using hrange

/-- C12, the code at the failing inputs: the test of `process` is on the sample count of
the block, not on a count of processed blocks.  On a freshly initialized plugin the first
block (64 frames) and the second block (128 frames) both replace the published waveform,
which has 64 and then 128 samples; and 64 consecutive blocks of one frame each leave the
waveform as it was, empty, the 64th block included. -/
theorem C12_cadence_follows_sample_count :
    state_running.is_initialized = true ∧
    state_running.waveform_data = [] ∧
    (run state_running (process_calls [silent_block 64])).map
      (fun t => t.waveform_data.length) = some 64 ∧
    (run state_running (process_calls [silent_block 64, silent_block 128])).map
      (fun t => t.waveform_data.length) = some 128 ∧
    (run state_running (process_calls (List.replicate 64 (tagged_block 1)))).map
      (fun t => t.waveform_data) = some [] := by
  have hinit : state_running.is_initialized = true := by decide
  have hw : state_running.waveform_data = [] := by decide
  have h64 : Int.tmod (silent_block 64).2.2 64 = 0 := by decide
  have h128 : Int.tmod (silent_block 128).2.2 64 = 0 := by decide
  obtain ⟨t1, ht1, hi1, hw1⟩ := process_waveform state_running (silent_block 64).1
    (silent_block 64).2.1 (silent_block 64).2.2 hinit (blockOk_silent_block 64 (by decide))
  obtain ⟨t2, ht2, _, hw2⟩ := process_waveform t1 (silent_block 128).1
    (silent_block 128).2.1 (silent_block 128).2.2 hi1 (blockOk_silent_block 128 (by decide))
  rw [if_pos h64] at hw1
  rw [if_pos h128] at hw2
  refine ⟨hinit, hw, ?_, ?_, ?_⟩
  · rw [run_process_cons, ht1]
    simp only [process_calls, List.map_nil, run, Option.map_some', hw1, List.length_map,
      List.length_range]
    decide
  · rw [run_process_cons, ht1]
    simp only []
    rw [run_process_cons, ht2]
    simp only [process_calls, List.map_nil, run, Option.map_some', hw2, List.length_map,
      List.length_range]
    decide
  · obtain ⟨t, ht, htw⟩ := run_process_calls_waveform_unchanged
      (List.replicate 64 (tagged_block 1)) state_running hinit (by
        intro block hblock
        rw [List.eq_of_mem_replicate hblock]
        exact ⟨blockOk_of_not_multiple _ _ 1 (by decide) (by decide) (by decide),
          by decide⟩)
    rw [ht, Option.map_some', htw, hw]

theorem loop_count_small (n : Nat) (h : n < 1000) : loop_count n (waveform_step n) = n := by
  have hS : waveform_step n = 1 := by
    unfold waveform_step
    rw [Nat.div_eq_of_lt h]
    rfl
  rw [hS, loop_count]
  simp

theorem loop_count_large (n : Nat) (h : 1000 ≤ n) :
    1000 ≤ loop_count n (waveform_step n) ∧ loop_count n (waveform_step n) ≤ 1999 := by
  have hdiv : 1 ≤ n / 1000 := by omega
  have hS : waveform_step n = n / 1000 := by
    unfold waveform_step
    exact Nat.max_eq_right hdiv
  have hlow : 1000 * (n / 1000) ≤ n := Nat.mul_div_le n 1000
  have hhigh : n < 1000 * (n / 1000) + 1000 := by omega
  rw [hS]
  unfold loop_count
  constructor
  · rw [Nat.le_div_iff_mul_le (by omega)]
    omega
  · apply Nat.le_of_lt_succ
    rw [Nat.div_lt_iff_lt_mul (by omega)]
    have h1 : Nat.succ 1999 * (n / 1000) = 2000 * (n / 1000) := rfl
    omega

/-- The loop counter of `extract_waveform` stays within `int` for every block of at most
`2145339000` frames. -/
theorem last_counter_le (n : Nat) (h : n ≤ 2145339000) : last_counter n ≤ 2147483647 := by
  rw [last_counter_eq]
  by_cases hsmall : n < 1000
  · have hS : waveform_step n = 1 := by
      unfold waveform_step
      rw [Nat.div_eq_of_lt hsmall]
      rfl
    rw [loop_count_small n hsmall, hS]
    omega
  · have hdiv : 1 ≤ n / 1000 := by omega
    have hS : waveform_step n = n / 1000 := by
      unfold waveform_step
      exact Nat.max_eq_right hdiv
    have hlow : 1000 * (n / 1000) ≤ n := Nat.mul_div_le n 1000
    have hhigh : n < 1000 * (n / 1000) + 1000 := by omega
    rw [hS]
    unfold loop_count
    have hmul : (n + n / 1000 - 1) / (n / 1000) * (n / 1000) ≤ n + n / 1000 - 1 :=
      Nat.div_mul_le_self _ _
    by_cases hq : n / 1000 < 1000
    · omega
    · by_cases hexact : n = 1000 * (n / 1000)
      · have hcount : (n + n / 1000 - 1) / (n / 1000) = 1000 := by
          apply Nat.div_eq_of_lt_le
          · omega
          · have h1 : Nat.succ 1000 * (n / 1000) = 1000 * (n / 1000) + n / 1000 :=
              Nat.succ_mul _ _
            omega
        rw [hcount]
        omega
      · have hcount : (n + n / 1000 - 1) / (n / 1000) ≤ 1001 := by
          apply Nat.le_of_lt_succ
          rw [Nat.div_lt_iff_lt_mul (by omega)]
          have h1 : Nat.succ 1001 * (n / 1000) = 1002 * (n / 1000) := rfl
          omega
        have hq2 : n / 1000 ≤ 2145338 := by omega
        calc (n + n / 1000 - 1) / (n / 1000) * (n / 1000)
            ≤ 1001 * (n / 1000) := Nat.mul_le_mul_right _ hcount
          _ ≤ 2147483647 := by omega

/-- C13 (as amended): for a block of `n >= 0` frames whose channels hold `n` samples and
for which the loop counter stays within `int`, that is
`ceil(n / step) * step <= 2147483647` (true of every `n <= 2145339000`),
`extract_waveform` returns and the waveform it publishes has `n` samples when `n < 1000`
and between 1000 and 1999 samples when `n >= 1000`; it has exactly 1999 samples for
`n = 1999`, so the length never reaches 2000 but can be almost twice the display target
of 1000. -/
theorem C13_waveform_length_bound (s : State) (buffer : AudioBuffer F32) (n : Nat)
    (hn : buffer.num_samples = (n : Int)) (hleft : buffer.left.length = n)
    (hright : ∀ r, buffer.right = some r → r.length = n)
    (hrange : last_counter n ≤ 2147483647) :
    ∃ t, extract_waveform s buffer = some t ∧
      (n < 1000 → t.waveform_data.length = n) ∧
      (1000 ≤ n → 1000 ≤ t.waveform_data.length ∧ t.waveform_data.length ≤ 1999) ∧
      (n = 1999 → t.waveform_data.length = 1999) ∧
      t.waveform_data.length < 2000 := by
  rw [last_counter_eq] at hrange
  rw [extract_waveform_publishes, extract_waveform_samples_eq buffer n hn hleft hright hrange]
  refine ⟨_, rfl, ?_⟩
  simp only [List.length_map, List.length_range]
  refine ⟨loop_count_small n, loop_count_large n, ?_, ?_⟩
  · intro h
    rw [h]
    decide
  · by_cases h : n < 1000
    · rw [loop_count_small n h]; omega
    · have := (loop_count_large n (by omega)).2
      omega

/-- C13, the claim as stated fails for the largest blocks: `process` on a running plugin
with a block of `2147483008` frames, a multiple of 64, calls `extract_waveform`, whose
step is `2147483` and whose loop runs 1001 times; the `i += step` that ends the last
iteration takes the counter from `2147483000` to `2149630483`, beyond `INT_MAX`.  That
signed overflow is undefined behaviour: no waveform of fewer than 2000 samples is
published. -/
theorem C13_counter_overflow_counterexample :
    Int.tmod 2147483008 64 = 0 ∧
    waveform_step 2147483008 = 2147483 ∧
    loop_count 2147483008 2147483 = 1001 ∧
    2147483647 < 1001 * 2147483 ∧
    extract_waveform state_running
      (process_buffer 44100 (silent_block 2147483008).1 (silent_block 2147483008).2.1
        2147483008) = none ∧
    process state_running (silent_block 2147483008).1 (silent_block 2147483008).2.1
      2147483008 = none := by
  have hlen : (process_buffer 44100 (silent_block 2147483008).1
      (silent_block 2147483008).2.1 2147483008).left.length = 2147483008 := by
    simp only [silent_block, process_buffer, List.length_take, List.length_replicate]
    rfl
  have hright : ∀ r, (process_buffer 44100 (silent_block 2147483008).1
      (silent_block 2147483008).2.1 2147483008).right = some r → r.length = 2147483008 := by
    intro r hr
    simp only [silent_block, process_buffer, Option.some.injEq] at hr
    rw [← hr]
    simp only [List.length_take, List.length_replicate]
    rfl
  have hnone : extract_waveform state_running
      (process_buffer 44100 (silent_block 2147483008).1 (silent_block 2147483008).2.1
        2147483008) = none := by
    rw [extract_waveform_publishes, extract_waveform_samples_overflow _ 2147483008 rfl hlen
      hright (by decide)]
    rfl
  have hinit : state_running.is_initialized = true := by decide
  have hen : state_running.analysis_enabled = true := by decide
  have hsr : state_running.sample_rate = 44100 := by decide
  have h64 : Int.tmod 2147483008 64 = 0 := by decide
  refine ⟨h64, by decide, by decide, by decide, hnone, ?_⟩
  rw [process_initialized state_running _ _ 2147483008 hinit (by decide)
    (by simp only [silent_block, List.length_replicate]; decide)
    (by simp only [silent_block, List.length_replicate]; decide), if_pos h64,
    extract_waveform_publishes, hsr, extract_waveform_samples_overflow _ 2147483008 rfl hlen
      hright (by decide)]
  rfl

/-- C13, a concrete block: 1999 frames are published as 1999 samples. -/
theorem C13_waveform_length_bound_witness :
    ∃ t, extract_waveform state_running buffer_1999_frames = some t ∧
      t.waveform_data.length = 1999 := by
  obtain ⟨t, ht, _, _, h1999, _⟩ := C13_waveform_length_bound state_running
    buffer_1999_frames 1999 rfl
    (by
      simp only [buffer_1999_frames, silent_block, process_buffer, List.length_take,
        List.length_replicate]
      rfl)
    (by
      intro r hr
      simp only [buffer_1999_frames, silent_block, process_buffer, Option.some.injEq] at hr
      rw [← hr]
      simp only [List.length_take, List.length_replicate]
      rfl)
    (last_counter_le 1999 (by decide))
  exact ⟨t, ht, h1999 rfl⟩

end SampleMind
